import Mathlib

/-!
Verification development for the protocol translation core of the one-api
gateway: the bidirectional converter between the OpenAI Chat Completions
and OpenAI Responses API families, including the streaming adapter that
turns Chat Completions stream chunks into Responses stream events.

The definitions below are a shallow embedding of
`service/openaicompat/chat_to_responses_stream.go` and
`service/openaicompat/responses_to_chat_request.go`.

Modelling conventions:
- JSON values (`json.RawMessage`, `any`) are an inductive `Json` type.
- Go maps used as insertion-ordered tables are association lists; the Go
  runtime iterates map keys in unspecified order, the embedding iterates
  in insertion order (all verified statements are insensitive to the
  relative order of distinct tool-call indices).
- `common.GetUUID` is a source of collision-resistant fresh tokens (spec
  section 6); it is modelled as a deterministic counter producing
  pairwise distinct strings.
- Timestamps (`common.GetTimestamp`, `time.Now`) are integer parameters.
- Event payloads are structured values (one constructor per event shape
  built by the `create*Event` functions) rather than marshalled bytes;
  `eventType` recovers the wire-level `type` field.
-/

set_option maxHeartbeats 1000000

namespace OneApi

/-- A JSON value, as decoded from raw bytes (`json.RawMessage` / `any`). -/
inductive Json where
  | str (s : String)
  | num (n : Int)
  | bool (b : Bool)
  | null
  | arr (elems : List Json)
  | obj (fields : List (String × Json))

/-- Modelled from the spec: `common.GetJsonType` classifies the top-level
shape of a raw JSON value (used to dispatch `input` and `tool_choice`
between the string form and the array or object form). -/
def getJsonType : Json → String
  | .str _ => "string"
  | .num _ => "number"
  | .bool _ => "boolean"
  | .null => "null"
  | .arr _ => "array"
  | .obj _ => "object"

/-- Modelled from the spec: `common.GetUUID` returns a fresh
collision-resistant token; deterministically modelled as the n-th token.
Injectivity is all that is used (distinct draws give distinct tokens). -/
def uuid (n : Nat) : String := String.mk (List.replicate n 'u')

/-! ## Chat Completions stream chunk DTOs (`dto` package view)

Only the fields read by the converter are modelled. A `nil` pointer field
is `Option.none`; a Go string field that may be absent is `""` as in Go. -/

/-- The `function` object inside a streamed tool call delta
(`tc.Function.Name`, `tc.Function.Arguments`). -/
structure FunctionCallDelta where
  name : String
  arguments : String
deriving DecidableEq

/-- One element of `delta.tool_calls` (`tc.Index` is a nullable pointer). -/
structure ToolCallDelta where
  index : Option Int
  id : String
  function : FunctionCallDelta
deriving DecidableEq

/-- `choices[0].delta` of a Chat Completions stream chunk. -/
structure ChatDelta where
  role : String
  content : Option String
  reasoningContent : Option String
  toolCalls : List ToolCallDelta
deriving DecidableEq

/-- One element of `chunk.choices`. -/
structure ChatStreamChoice where
  delta : ChatDelta
  finishReason : Option String
deriving DecidableEq

/-- `dto.Usage` (only the token counting fields read by the converter). -/
structure Usage where
  promptTokens : Int
  completionTokens : Int
  totalTokens : Int
  inputTokens : Int
  outputTokens : Int
deriving DecidableEq

/-- `dto.ChatCompletionsStreamResponse` (the fields read by `ConvertChunk`). -/
structure ChatCompletionsStreamResponse where
  model : String
  choices : List ChatStreamChoice
  usage : Option Usage
deriving DecidableEq

/-! ## Responses stream events

One constructor per distinct payload shape built by the `create*Event`
functions of `chat_to_responses_stream.go`; constructor arguments are the
state-dependent fields of the corresponding `map[string]any` literal, in
source order, including fields the source hardcodes (such as the
`output_text` part type in `content_part.added`). -/

/-- `usage` object of the `response.completed` event. -/
structure UsageMap where
  inputTokens : Int
  outputTokens : Int
  totalTokens : Int
deriving DecidableEq

/-- An element of the `output` snapshot array of `response.completed`:
either the message item (type `message`, status `completed`, role
`assistant`, a single empty `output_text` part) or a function call item
(type `function_call`, status `completed`); the source omits `call_id`
and `name` on the snapshot function call items. -/
inductive CompletedOutputItem where
  | message (id : String)
  | functionCall (id : String) (arguments : String)
deriving DecidableEq

/-- A Responses SSE event payload, as built by the `create*Event`
functions. -/
inductive StreamEvent where
  | responseCreated (id : String) (createdAt : Int) (model : String)
  | responseInProgress (id : String) (createdAt : Int) (model : String)
  | outputItemAddedMessage (outputIndex : Int) (itemId : String)
  | contentPartAdded (itemId : String) (outputIndex : Int) (contentIndex : Int)
      (partType : String) (partText : String)
  | outputTextDelta (itemId : String) (outputIndex : Int) (contentIndex : Int) (delta : String)
  | outputTextDone (itemId : String) (outputIndex : Int) (contentIndex : Int) (text : String)
  | contentPartDone (itemId : String) (outputIndex : Int) (contentIndex : Int)
      (partType : String) (partText : String)
  | outputItemDoneMessage (outputIndex : Int) (itemId : String)
  | outputItemAddedFunctionCall (outputIndex : Int) (itemId : String)
      (callId : String) (name : String)
  | functionCallArgumentsDelta (itemId : String) (outputIndex : Int) (delta : String)
  | functionCallArgumentsDone (itemId : String) (outputIndex : Int) (arguments : String)
  | outputItemDoneFunctionCall (outputIndex : Int) (itemId : String) (arguments : String)
  | responseCompleted (id : String) (createdAt : Int) (status : String) (model : String)
      (output : List CompletedOutputItem) (usage : Option UsageMap)
deriving DecidableEq

/-- The wire-level `type` field of an event payload. -/
def eventType : StreamEvent → String
  | .responseCreated .. => "response.created"
  | .responseInProgress .. => "response.in_progress"
  | .outputItemAddedMessage .. => "response.output_item.added"
  | .contentPartAdded .. => "response.content_part.added"
  | .outputTextDelta .. => "response.output_text.delta"
  | .outputTextDone .. => "response.output_text.done"
  | .contentPartDone .. => "response.content_part.done"
  | .outputItemDoneMessage .. => "response.output_item.done"
  | .outputItemAddedFunctionCall .. => "response.output_item.added"
  | .functionCallArgumentsDelta .. => "response.function_call_arguments.delta"
  | .functionCallArgumentsDone .. => "response.function_call_arguments.done"
  | .outputItemDoneFunctionCall .. => "response.output_item.done"
  | .responseCompleted .. => "response.completed"

/-! ## Association list helpers (Go `map[int]string` with insertion order) -/

/-- Reading `m[k]`: first entry whose key equals `k`. -/
def lookupAssoc (m : List (Int × String)) (k : Int) : Option String :=
  match m with
  | [] => none
  | (k', v) :: rest => if k' = k then some v else lookupAssoc rest k

/-- Writing `m[k] = v`: update in place, or append a new entry. -/
def setAssoc (m : List (Int × String)) (k : Int) (v : String) : List (Int × String) :=
  match m with
  | [] => [(k, v)]
  | (k', v') :: rest => if k' = k then (k, v) :: rest else (k', v') :: setAssoc rest k v

/-! ## The streaming adapter (`ChatToResponsesStreamAdapter`) -/

/-- Per-stream mutable state of the adapter (struct fields of
`ChatToResponsesStreamAdapter`), plus the UUID counter `nextUUID`
standing for the external `common.GetUUID` source. -/
structure ChatToResponsesStreamAdapter where
  responseID : String
  createdAt : Int
  model : String
  initialized : Bool
  messageItemID : String
  contentPartIndex : Int
  toolCallItemIDs : List (Int × String)
  toolCallArguments : List (Int × String)
  outputIndex : Int
  hasTextContent : Bool
  nextUUID : Nat
deriving DecidableEq

/-- `NewChatToResponsesStreamAdapter`: fresh adapter; the created-at
timestamp is a parameter (minted from the clock in the source). -/
def NewChatToResponsesStreamAdapter (createdAt : Int) : ChatToResponsesStreamAdapter :=
  { responseID := "resp_" ++ uuid 0
    createdAt := createdAt
    model := ""
    initialized := false
    messageItemID := "msg_" ++ uuid 1
    contentPartIndex := 0
    toolCallItemIDs := []
    toolCallArguments := []
    outputIndex := 0
    hasTextContent := false
    nextUUID := 2 }

/-- `createResponseCreatedEvent`. -/
def createResponseCreatedEvent (a : ChatToResponsesStreamAdapter) : StreamEvent :=
  .responseCreated a.responseID a.createdAt a.model

/-- `createResponseInProgressEvent`. -/
def createResponseInProgressEvent (a : ChatToResponsesStreamAdapter) : StreamEvent :=
  .responseInProgress a.responseID a.createdAt a.model

/-- `createOutputItemAddedEvent` (message item, status `in_progress`). -/
def createOutputItemAddedEvent (a : ChatToResponsesStreamAdapter) : StreamEvent :=
  .outputItemAddedMessage a.outputIndex a.messageItemID

/-- `createContentPartAddedEvent` (part is hardcoded `output_text`/`""`). -/
def createContentPartAddedEvent (a : ChatToResponsesStreamAdapter) : StreamEvent :=
  .contentPartAdded a.messageItemID a.outputIndex a.contentPartIndex "output_text" ""

/-- `createTextDeltaEvent`. -/
def createTextDeltaEvent (a : ChatToResponsesStreamAdapter) (text : String) : StreamEvent :=
  .outputTextDelta a.messageItemID a.outputIndex a.contentPartIndex text

/-- `createTextDoneEvent` (the source emits an empty `text` because it
does not accumulate text). -/
def createTextDoneEvent (a : ChatToResponsesStreamAdapter) : StreamEvent :=
  .outputTextDone a.messageItemID a.outputIndex a.contentPartIndex ""

/-- `createContentPartDoneEvent`. -/
def createContentPartDoneEvent (a : ChatToResponsesStreamAdapter) : StreamEvent :=
  .contentPartDone a.messageItemID a.outputIndex a.contentPartIndex "output_text" ""

/-- `createOutputItemDoneEvent` (message item, status `completed`). -/
def createOutputItemDoneEvent (a : ChatToResponsesStreamAdapter) : StreamEvent :=
  .outputItemDoneMessage a.outputIndex a.messageItemID

/-- `createFunctionCallAddedEvent`: uses the adapter-level `outputIndex`
counter for `output_index` and the stored item id for `idx`. -/
def createFunctionCallAddedEvent (a : ChatToResponsesStreamAdapter)
    (idx : Int) (callID name : String) : StreamEvent :=
  .outputItemAddedFunctionCall a.outputIndex ((lookupAssoc a.toolCallItemIDs idx).getD "")
    callID name

/-- `createFunctionCallArgumentsDeltaEvent`: `output_index` is `idx+1`
when text content has been seen (adjusting for the message output item)
and the raw `idx` otherwise. -/
def createFunctionCallArgumentsDeltaEvent (a : ChatToResponsesStreamAdapter)
    (idx : Int) (argsDelta : String) : StreamEvent :=
  let outputIdx := if a.hasTextContent then idx + 1 else idx
  .functionCallArgumentsDelta ((lookupAssoc a.toolCallItemIDs idx).getD "") outputIdx argsDelta

/-- `createFunctionCallArgumentsDoneEvent`. -/
def createFunctionCallArgumentsDoneEvent (a : ChatToResponsesStreamAdapter)
    (idx : Int) : StreamEvent :=
  let outputIdx := if a.hasTextContent then idx + 1 else idx
  .functionCallArgumentsDone ((lookupAssoc a.toolCallItemIDs idx).getD "") outputIdx
    ((lookupAssoc a.toolCallArguments idx).getD "")

/-- `createFunctionCallDoneEvent` (function call item, status `completed`). -/
def createFunctionCallDoneEvent (a : ChatToResponsesStreamAdapter)
    (idx : Int) : StreamEvent :=
  let outputIdx := if a.hasTextContent then idx + 1 else idx
  .outputItemDoneFunctionCall outputIdx ((lookupAssoc a.toolCallItemIDs idx).getD "")
    ((lookupAssoc a.toolCallArguments idx).getD "")

/-- `createResponseCompletedEvent`: finish reason to status switch, the
`output` snapshot rebuilt from accumulated state, and the usage map with
the `InputTokens`/`OutputTokens` precedence rule. -/
def createResponseCompletedEvent (a : ChatToResponsesStreamAdapter)
    (usage : Option Usage) (finishReason : String) : StreamEvent :=
  let status :=
    if finishReason = "length" then "incomplete"
    else if finishReason = "content_filter" then "failed"
    else "completed"
  let output :=
    (if a.hasTextContent then [CompletedOutputItem.message a.messageItemID] else []) ++
      a.toolCallItemIDs.map (fun p =>
        CompletedOutputItem.functionCall p.2 ((lookupAssoc a.toolCallArguments p.1).getD ""))
  let usageMap : Option UsageMap :=
    match usage with
    | none => none
    | some u =>
        let inputTokens := if u.inputTokens > 0 then u.inputTokens else u.promptTokens
        let outputTokens := if u.outputTokens > 0 then u.outputTokens else u.completionTokens
        some { inputTokens := inputTokens, outputTokens := outputTokens,
               totalTokens := u.totalTokens }
  .responseCompleted a.responseID a.createdAt status a.model output usageMap

/-- Body of the `for _, tc := range delta.ToolCalls` loop of
`ConvertChunk` (lines 86-109): registers a previously unseen index
(fresh item id, empty accumulator, incremented `outputIndex`, emitting
`output_item.added`) and appends a non-empty arguments delta to the
accumulator, emitting `function_call_arguments.delta`. -/
def processToolCall (a : ChatToResponsesStreamAdapter) (tc : ToolCallDelta) :
    ChatToResponsesStreamAdapter × List StreamEvent :=
  let idx := tc.index.getD 0
  let (a1, events) :=
    match lookupAssoc a.toolCallItemIDs idx with
    | some _ => (a, ([] : List StreamEvent))
    | none =>
        let itemID := "fc_" ++ uuid a.nextUUID
        let a1 := { a with
          toolCallItemIDs := setAssoc a.toolCallItemIDs idx itemID
          toolCallArguments := setAssoc a.toolCallArguments idx ""
          outputIndex := a.outputIndex + 1
          nextUUID := a.nextUUID + 1 }
        (a1, [createFunctionCallAddedEvent a1 idx tc.id tc.function.name])
  if tc.function.arguments ≠ "" then
    let a2 := { a1 with
      toolCallArguments := setAssoc a1.toolCallArguments idx
        (((lookupAssoc a1.toolCallArguments idx).getD "") ++ tc.function.arguments) }
    (a2, events ++ [createFunctionCallArgumentsDeltaEvent a2 idx tc.function.arguments])
  else (a1, events)

/-- The tool call loop over `delta.tool_calls`, in order. -/
def processToolCalls (a : ChatToResponsesStreamAdapter) :
    List ToolCallDelta → ChatToResponsesStreamAdapter × List StreamEvent
  | [] => (a, [])
  | tc :: rest =>
      let r := processToolCall a tc
      let r2 := processToolCalls r.1 rest
      (r2.1, r.2 ++ r2.2)

/-- The finish reason block of `ConvertChunk` (lines 113-129): close the
message item when text content was seen, close every registered tool
call, then emit `response.completed`. -/
def createFinishEvents (a : ChatToResponsesStreamAdapter)
    (usage : Option Usage) (finishReason : String) : List StreamEvent :=
  (if a.hasTextContent then
      [createTextDoneEvent a, createContentPartDoneEvent a, createOutputItemDoneEvent a]
    else []) ++
  (a.toolCallItemIDs.map (fun p =>
      [createFunctionCallArgumentsDoneEvent a p.1, createFunctionCallDoneEvent a p.1])).flatten ++
  [createResponseCompletedEvent a usage finishReason]

/-- Role block of `ConvertChunk` (lines 67-70): a role of `assistant`
with no text content seen yet opens the message item and its content
part. -/
def processRole (a : ChatToResponsesStreamAdapter) (delta : ChatDelta) :
    ChatToResponsesStreamAdapter × List StreamEvent :=
  if delta.role = "assistant" ∧ a.hasTextContent = false then
    (a, [createOutputItemAddedEvent a, createContentPartAddedEvent a])
  else (a, [])

/-- Text content block of `ConvertChunk` (lines 79-82): a non-empty
content delta latches `hasTextContent` and emits the text delta. -/
def processText (a : ChatToResponsesStreamAdapter) (delta : ChatDelta) :
    ChatToResponsesStreamAdapter × List StreamEvent :=
  match delta.content with
  | some c =>
      if c ≠ "" then
        let a2 := { a with hasTextContent := true }
        (a2, [createTextDeltaEvent a2 c])
      else (a, [])
  | none => (a, [])

/-- Tool call block of `ConvertChunk` (lines 85-110): the loop guarded
by `len(delta.ToolCalls) > 0`. -/
def processToolCallsGuard (a : ChatToResponsesStreamAdapter) (delta : ChatDelta) :
    ChatToResponsesStreamAdapter × List StreamEvent :=
  if delta.toolCalls ≠ [] then processToolCalls a delta.toolCalls else (a, [])

/-- Finish reason block of `ConvertChunk` (lines 113-129). -/
def processFinish (a : ChatToResponsesStreamAdapter) (choice : ChatStreamChoice)
    (usage : Option Usage) : List StreamEvent :=
  match choice.finishReason with
  | some fr => if fr ≠ "" then createFinishEvents a usage fr else []
  | none => []

/-- Processing of `chunk.choices[0]` inside `ConvertChunk` (lines
62-130): role block, reasoning block (a no-op in the source, lines
72-76: the source checks `delta.ReasoningContent != nil &&
*delta.ReasoningContent != ""` and the branch body is empty, so
reasoning content has no effect), text content block, tool call loop,
finish reason block. -/
def processChoice (a0 : ChatToResponsesStreamAdapter) (choice : ChatStreamChoice)
    (usage : Option Usage) : ChatToResponsesStreamAdapter × List StreamEvent :=
  let r1 := processRole a0 choice.delta
  let r2 := processText r1.1 choice.delta
  let r3 := processToolCallsGuard r2.1 choice.delta
  let es4 := processFinish r3.1 choice usage
  (r3.1, r1.2 ++ r2.2 ++ r3.2 ++ es4)

/-- `ConvertChunk`: nil chunk yields no events; otherwise latch the
model, emit the initial `response.created` / `response.in_progress`
pair once, and process `choices[0]` if present. -/
def ConvertChunk (a0 : ChatToResponsesStreamAdapter)
    (chunk : Option ChatCompletionsStreamResponse) :
    ChatToResponsesStreamAdapter × List StreamEvent :=
  match chunk with
  | none => (a0, [])
  | some chunk =>
      let a1 := if chunk.model ≠ "" then { a0 with model := chunk.model } else a0
      let r2 :=
        if a1.initialized = false then
          let a2 := { a1 with initialized := true }
          (a2, [createResponseCreatedEvent a2, createResponseInProgressEvent a2])
        else (a1, ([] : List StreamEvent))
      let a2 := r2.1
      match chunk.choices with
      | [] => (a2, r2.2)
      | choice :: _ =>
          let r3 := processChoice a2 choice chunk.usage
          (r3.1, r2.2 ++ r3.2)

/-- Feeding a whole stream of (non-nil) chunks to one adapter, collecting
all emitted events in order. -/
def runStream (a : ChatToResponsesStreamAdapter) :
    List ChatCompletionsStreamResponse →
    ChatToResponsesStreamAdapter × List StreamEvent
  | [] => (a, [])
  | c :: rest =>
      let r := ConvertChunk a (some c)
      let r2 := runStream r.1 rest
      (r2.1, r.2 ++ r2.2)

/-! ## Non-streaming response translation
(`ChatCompletionsResponseToResponsesResponse`, lines 433-610) -/

/-- `dto.FunctionResponse` (a parsed tool call's function). -/
structure FunctionResponse where
  name : String
  arguments : String
deriving DecidableEq

/-- `dto.ToolCallResponse` (a parsed tool call). -/
structure ToolCallResponse where
  id : String
  type : String
  function : FunctionResponse
deriving DecidableEq

/-- View of `choices[0].message` of a `dto.OpenAITextResponse`.
Modelled from the spec: `msg.StringContent()` (the flat text content)
and `msg.ParseToolCalls()` (the parsed tool call list) are `dto`
accessors outside the translated sources; their results are the
`stringContent` and `toolCalls` fields. -/
structure ChatTextMessage where
  stringContent : String
  reasoningContent : String
  toolCalls : List ToolCallResponse
deriving DecidableEq

/-- One element of `chatResp.Choices`. -/
structure ChatTextChoice where
  message : ChatTextMessage
  finishReason : String
deriving DecidableEq

/-- `dto.OpenAITextResponse` (fields read by the converter); `created`
is a decoded JSON number when numeric, `none` otherwise (the source
falls back to the current time, passed here as a parameter). -/
structure OpenAITextResponse where
  id : String
  created : Option Int
  model : String
  choices : List ChatTextChoice
  usage : Usage
deriving DecidableEq

/-- `dto.ResponsesOutputContent`: a content part of a message output
item; `annotations` is `some []` when the source sets the empty
annotation list and `none` when it leaves the field unset. -/
structure ResponsesOutputContent where
  type : String
  text : String
  annotations : Option (List Json)

/-- `dto.ResponsesOutput`: a top-level output item of a Responses
response. -/
structure ResponsesOutput where
  type : String
  id : String
  status : String
  callId : String
  name : String
  arguments : String
  role : String
  content : List ResponsesOutputContent

/-- `dto.Reasoning` (`reasoning.effort`). -/
structure Reasoning where
  effort : String
deriving DecidableEq

/-- `dto.OpenAIResponsesRequest` (fields read by the converters). Raw
`json.RawMessage` fields are `Option Json` (`none` for zero length);
`*float64` fields are optional numeric values. -/
structure OpenAIResponsesRequest where
  model : String
  input : Option Json
  instructions : Option Json
  stream : Bool
  maxOutputTokens : Int
  temperature : Option Rat
  topP : Option Rat
  tools : Option Json
  toolChoice : Option Json
  parallelToolCalls : Option Json
  reasoning : Option Reasoning
  metadata : Option Json
  user : String
  store : Option Json

/-- `dto.OpenAIResponsesResponse` (fields written by the converter). -/
structure OpenAIResponsesResponse where
  id : String
  object : String
  createdAt : Int
  status : String
  model : String
  output : List ResponsesOutput
  usage : Option Usage
  instructions : String
  maxOutputTokens : Int
  temperature : Rat
  topP : Rat
  reasoning : Option Reasoning
  metadata : Option Json

/-- `convertChatUsageToResponsesUsage`: input/output token fields copied
from prompt/completion tokens unless already set (positive). -/
def convertChatUsageToResponsesUsage (chatUsage : Option Usage) : Option Usage :=
  match chatUsage with
  | none => none
  | some c =>
      let usage : Usage :=
        { promptTokens := c.promptTokens
          completionTokens := c.completionTokens
          totalTokens := c.totalTokens
          inputTokens := c.promptTokens
          outputTokens := c.completionTokens }
      let usage := if c.inputTokens > 0 then { usage with inputTokens := c.inputTokens } else usage
      let usage := if c.outputTokens > 0 then { usage with outputTokens := c.outputTokens } else usage
      some usage

/-- Body of `ChatCompletionsResponseToResponsesResponse` for a non-nil
chat response. `seed` feeds the UUID source and `now` is the clock
fallback for a non-numeric `created`. -/
def ChatCompletionsResponseToResponsesResponseCore (seed : Nat) (now : Int)
    (chatResp : OpenAITextResponse) (originalReq : Option OpenAIResponsesRequest) :
    OpenAIResponsesResponse :=
  -- response id: reuse when already prefixed with resp_, else mint
  let r0 :=
    if chatResp.id = "" ∨ (chatResp.id.startsWith "resp_") = false then
      ("resp_" ++ uuid seed, seed + 1)
    else (chatResp.id, seed)
  let responseID := r0.1
  let s1 := r0.2
  let createdAt := match chatResp.created with | some v => v | none => now
  -- build the output array (lines 461-516)
  let output :=
    match chatResp.choices with
    | [] => ([] : List ResponsesOutput)
    | choice :: _ =>
        let msg := choice.message
        let toolCalls := msg.toolCalls
        let fcOutput : List ResponsesOutput := toolCalls.enum.map (fun p =>
          { type := "function_call"
            id := "fc_" ++ uuid (s1 + p.1)
            status := "completed"
            callId := p.2.id
            name := p.2.function.name
            arguments := p.2.function.arguments
            role := ""
            content := [] })
        let textContent := msg.stringContent
        if textContent ≠ "" ∨ toolCalls.length = 0 then
          let contentItems : List ResponsesOutputContent :=
            (if msg.reasoningContent ≠ "" then
               [{ type := "reasoning", text := msg.reasoningContent, annotations := none }]
             else []) ++
            (if textContent ≠ "" then
               [{ type := "output_text", text := textContent, annotations := some [] }]
             else [])
          if contentItems.length > 0 ∨ toolCalls.length = 0 then
            ({ type := "message"
               id := "msg_" ++ uuid (s1 + toolCalls.length)
               status := "completed"
               callId := ""
               name := ""
               arguments := ""
               role := "assistant"
               content := contentItems } : ResponsesOutput) :: fcOutput
          else fcOutput
        else fcOutput
  -- status from choices[0].finishReason (lines 519-527)
  let status :=
    match chatResp.choices with
    | [] => "completed"
    | choice :: _ =>
        if choice.finishReason = "length" then "incomplete"
        else if choice.finishReason = "content_filter" then "failed"
        else "completed"
  let usage := convertChatUsageToResponsesUsage (some chatResp.usage)
  let instructions :=
    match originalReq with
    | some req =>
        match req.instructions with
        | some (.str s) => s
        | _ => ""
    | none => ""
  { id := responseID
    object := "response"
    createdAt := createdAt
    status := status
    model := chatResp.model
    output := output
    usage := usage
    instructions := instructions
    maxOutputTokens := match originalReq with | some req => req.maxOutputTokens | none => 0
    temperature := match originalReq with | some req => req.temperature.getD 0 | none => 0
    topP := match originalReq with | some req => req.topP.getD 0 | none => 0
    reasoning := originalReq.bind (fun req => req.reasoning)
    metadata := originalReq.bind (fun req => req.metadata) }

/-- `ChatCompletionsResponseToResponsesResponse`: nil chat response
yields nil. -/
def ChatCompletionsResponseToResponsesResponse (seed : Nat) (now : Int)
    (chatResp : Option OpenAITextResponse) (originalReq : Option OpenAIResponsesRequest) :
    Option OpenAIResponsesResponse :=
  chatResp.map (fun resp => ChatCompletionsResponseToResponsesResponseCore seed now resp originalReq)

/-! ## Responses request to Chat Completions request
(`responses_to_chat_request.go`) -/

/-- `dto.Message.Content` (Go `any`): unset, a plain string, or a list
of typed content part objects. -/
inductive MessageContent where
  | unset
  | str (s : String)
  | parts (ps : List Json)

/-- `dto.Message` (fields written by the converter). -/
structure Message where
  role : String
  content : MessageContent
  toolCalls : Option (List ToolCallResponse)
  toolCallId : String

/-- `dto.FunctionRequest` (a declared tool's function). -/
structure FunctionRequest where
  name : String
  description : String
  parameters : Option Json

/-- `dto.ToolCallRequest` (a declared tool); a non-function tool keeps
only its type, leaving `function` at its zero value. -/
structure ToolCallRequest where
  type : String
  function : FunctionRequest

/-- `dto.GeneralOpenAIRequest` (fields written by the converter). -/
structure GeneralOpenAIRequest where
  model : String
  messages : List Message
  stream : Bool
  maxTokens : Int
  temperature : Option Rat
  topP : Rat
  tools : List ToolCallRequest
  toolChoice : Option Json
  user : String
  parallelTooCalls : Option Bool
  store : Option Json
  metadata : Option Json
  reasoningEffort : String

/-- First field of a JSON object with the given key (Go map read). -/
def lookupField (fields : List (String × Json)) (key : String) : Option Json :=
  match fields with
  | [] => none
  | (k, v) :: rest => if k = key then some v else lookupField rest key

/-- Go `m[key].(string)` type assertion: the string value of the field,
or the zero value `""` when absent or not a string. -/
def getStrField (fields : List (String × Json)) (key : String) : String :=
  match lookupField fields key with
  | some (.str s) => s
  | _ => ""

/-- Go `part.(map[string]any)` type assertion. -/
def asObjFields : Json → Option (List (String × Json))
  | .obj fields => some fields
  | _ => none

/-- Element-wise decoding of a JSON array into a list of objects,
failing on the first non-object element. -/
def unmarshalObjArray : List Json → Option (List (List (String × Json)))
  | [] => some []
  | j :: rest =>
      match asObjFields j, unmarshalObjArray rest with
      | some fields, some tail => some (fields :: tail)
      | _, _ => none

/-- Modelled from the spec: `common.Unmarshal` of raw JSON into
`[]map[string]any` succeeds exactly when the value is an array of
objects (the JSON codec rejects any non-object element). -/
def asObjArray (j : Json) : Option (List (List (String × Json))) :=
  match j with
  | .arr elems => unmarshalObjArray elems
  | _ => none

/-- `extractImageURL`: accepts `image_url` as a string or as an object
with a `url` field. -/
def extractImageURL (partMap : List (String × Json)) : String :=
  match lookupField partMap "image_url" with
  | some (.str s) => s
  | some (.obj m) =>
      match lookupField m "url" with
      | some (.str url) => url
      | _ => ""
  | _ => ""

/-- One step of the content part loop of `convertResponsesContent`
(lines 210-256): non-object parts are skipped, known part types are
renamed to the Chat Completions shape, unknown types are kept as-is. -/
def convertContentPart (acc : List Json) (part : Json) : List Json :=
  match asObjFields part with
  | none => acc
  | some partMap =>
      let partType := getStrField partMap "type"
      if partType = "input_text" then
        acc ++ [Json.obj [("type", .str "text"), ("text", .str (getStrField partMap "text"))]]
      else if partType = "input_image" then
        let imageURL := extractImageURL partMap
        if imageURL ≠ "" then
          acc ++ [Json.obj [("type", .str "image_url"),
                            ("image_url", Json.obj [("url", .str imageURL)])]]
        else acc
      else if partType = "input_audio" then
        match lookupField partMap "input_audio" with
        | some inputAudio =>
            acc ++ [Json.obj [("type", .str "input_audio"), ("input_audio", inputAudio)]]
        | none => acc
      else if partType = "input_file" then
        match lookupField partMap "file" with
        | some file => acc ++ [Json.obj [("type", .str "file"), ("file", file)]]
        | none => acc
      else if partType = "output_text" then
        acc ++ [Json.obj [("type", .str "text"), ("text", .str (getStrField partMap "text"))]]
      else
        acc ++ [Json.obj partMap]

/-- `convertResponsesContent`: a string stays a string; an array of
parts becomes the converted part list (or `""` when it converts to
nothing); any other shape becomes `""`. -/
def convertResponsesContent (content : Json) : MessageContent :=
  match content with
  | .str s => .str s
  | .arr parts =>
      let chatParts := parts.foldl convertContentPart []
      if chatParts.length > 0 then .parts chatParts else .str ""
  | _ => .str ""

/-- Body of the input item loop of `parseResponsesInput` (lines
131-197), dispatching on the item `type`. -/
def processInputItem (messages : List Message) (item : List (String × Json)) : List Message :=
  let itemType := getStrField item "type"
  if itemType = "message" ∨ itemType = "" then
    let role0 := getStrField item "role"
    let role := if role0 = "" then "user" else role0
    let msg : Message :=
      match lookupField item "content" with
      | some content =>
          { role := role, content := convertResponsesContent content,
            toolCalls := none, toolCallId := "" }
      | none => { role := role, content := .unset, toolCalls := none, toolCallId := "" }
    messages ++ [msg]
  else if itemType = "function_call" then
    let callID := getStrField item "call_id"
    let name := getStrField item "name"
    let arguments := getStrField item "arguments"
    if callID ≠ "" ∧ name ≠ "" then
      let toolCall : ToolCallResponse :=
        { id := callID, type := "function",
          function := { name := name, arguments := arguments } }
      match messages.getLast? with
      | some lastMsg =>
          if lastMsg.role = "assistant" then
            let existingCalls := lastMsg.toolCalls.getD []
            messages.dropLast ++ [{ lastMsg with toolCalls := some (existingCalls ++ [toolCall]) }]
          else
            messages ++ [{ role := "assistant", content := .unset,
                           toolCalls := some [toolCall], toolCallId := "" }]
      | none =>
          messages ++ [{ role := "assistant", content := .unset,
                         toolCalls := some [toolCall], toolCallId := "" }]
    else messages
  else if itemType = "function_call_output" then
    let callID := getStrField item "call_id"
    let output := getStrField item "output"
    if callID ≠ "" then
      messages ++ [{ role := "tool", content := .str output,
                     toolCalls := none, toolCallId := callID }]
    else messages
  else messages

/-- `parseResponsesInput`: empty input parses to nothing; a JSON string
becomes a single user message; a JSON array of objects is folded with
`processInputItem`; any other shape is the input shape error. The
message of a JSON codec failure on an array with non-object elements is
modelled as a fixed string (the source surfaces the codec error). -/
def parseResponsesInput (inputRaw : Option Json) : List Message × Option String :=
  match inputRaw with
  | none => ([], none)
  | some raw =>
      match raw with
      | .str s =>
          ([{ role := "user", content := .str s, toolCalls := none, toolCallId := "" }], none)
      | .arr elems =>
          match unmarshalObjArray elems with
          | none => ([], some "cannot unmarshal input items")
          | some inputItems => (inputItems.foldl processInputItem [], none)
      | _ => ([], some "input must be a string or array")

/-- `convertResponsesTools`: each function tool is flattened into the
Chat Completions nesting; other non-empty tool types keep only the
type; a codec failure yields no tools. -/
def convertResponsesTools (toolsRaw : Json) : List ToolCallRequest :=
  match asObjArray toolsRaw with
  | none => []
  | some toolsMap =>
      toolsMap.foldl (fun tools tool =>
        let toolType := getStrField tool "type"
        if toolType = "function" then
          tools ++ [{ type := "function",
                      function := { name := getStrField tool "name",
                                    description := getStrField tool "description",
                                    parameters := lookupField tool "parameters" } }]
        else if toolType ≠ "" then
          tools ++ [{ type := toolType, function := { name := "", description := "", parameters := none } }]
        else tools) []

/-- `convertResponsesToolChoice`: strings pass through; an object of
type `function` with a name is renested; other objects pass through; a
codec failure yields nil. -/
def convertResponsesToolChoice (toolChoiceRaw : Json) : Option Json :=
  match toolChoiceRaw with
  | .str s => some (.str s)
  | .obj fields =>
      let toolType := getStrField fields "type"
      let name := getStrField fields "name"
      if toolType = "function" ∧ name ≠ "" then
        some (.obj [("type", .str "function"), ("function", .obj [("name", .str name)])])
      else some (.obj fields)
  | _ => none

/-- `ResponsesRequestToChatCompletionsRequest`: the converter returns
the pair (chat request, error), each nilable, mirroring the Go
signature; every error path returns a nil request. -/
def ResponsesRequestToChatCompletionsRequest (req : Option OpenAIResponsesRequest) :
    Option GeneralOpenAIRequest × Option String :=
  match req with
  | none => (none, some "request is nil")
  | some req =>
      if req.model = "" then (none, some "model is required")
      else
        -- instructions become a system message when they decode to a
        -- non-blank string; decode failures are swallowed
        let sysMessages : List Message :=
          match req.instructions with
          | some (.str instructions) =>
              if instructions.trim ≠ "" then
                [{ role := "system", content := .str instructions,
                   toolCalls := none, toolCallId := "" }]
              else []
          | _ => []
        let inputParse :=
          match req.input with
          | some _ => parseResponsesInput req.input
          | none => (([] : List Message), (none : Option String))
        match inputParse with
        | (_, some err) => (none, some err)
        | (inputMessages, none) =>
            let messages := sysMessages ++ inputMessages
            let tools :=
              match req.tools with
              | some toolsJson => convertResponsesTools toolsJson
              | none => []
            let toolChoice :=
              match req.toolChoice with
              | some tc => convertResponsesToolChoice tc
              | none => none
            let parallelToolCalls : Option Bool :=
              match req.parallelToolCalls with
              | some (.bool b) => some b
              | _ => none
            let chatReq : GeneralOpenAIRequest :=
              { model := req.model
                messages := messages
                stream := req.stream
                maxTokens := req.maxOutputTokens
                temperature := req.temperature
                topP := match req.topP with | some v => v | none => 0
                tools := tools
                toolChoice := toolChoice
                user := req.user
                parallelTooCalls := parallelToolCalls
                store := req.store
                metadata := req.metadata
                reasoningEffort :=
                  match req.reasoning with
                  | some r => if r.effort ≠ "" ∧ r.effort ≠ "none" then r.effort else ""
                  | none => "" }
            (some chatReq, none)

/-! ## Statement vocabulary

Definitions used to phrase the verified statements: event classifiers,
counters, and decidable shape conditions on chunk streams. -/

/-- The chunk with `delta.reasoning_content` removed from every choice. -/
def eraseReasoningChunk (c : ChatCompletionsStreamResponse) : ChatCompletionsStreamResponse :=
  { c with choices := c.choices.map (fun ch =>
      { ch with delta := { ch.delta with reasoningContent := none } }) }

/-- Is the event the message `response.output_item.added`. -/
def isMsgItemAdded : StreamEvent → Bool
  | .outputItemAddedMessage .. => true
  | _ => false

/-- Is the event the message `response.output_item.done`. -/
def isMsgItemDone : StreamEvent → Bool
  | .outputItemDoneMessage .. => true
  | _ => false

/-- Is the event a `response.content_part.added`. -/
def isCpAdded : StreamEvent → Bool
  | .contentPartAdded .. => true
  | _ => false

/-- Is the event a `response.content_part.done`. -/
def isCpDone : StreamEvent → Bool
  | .contentPartDone .. => true
  | _ => false

/-- Is the event the `response.output_item.added` of the function call
item with the given item id. -/
def isFcAdded (id : String) : StreamEvent → Bool
  | .outputItemAddedFunctionCall _ i _ _ => i == id
  | _ => false

/-- Is the event the `response.output_item.done` of the function call
item with the given item id. -/
def isFcDone (id : String) : StreamEvent → Bool
  | .outputItemDoneFunctionCall _ i _ => i == id
  | _ => false

/-- Is the event a `response.output_text.delta`. -/
def isTextDelta : StreamEvent → Bool
  | .outputTextDelta .. => true
  | _ => false

/-- Is the event a `response.completed`. -/
def isCompleted : StreamEvent → Bool
  | .responseCompleted .. => true
  | _ => false

/-- Is the event one of the closing events (`*.done` or
`response.completed`). -/
def isDoneEvent : StreamEvent → Bool
  | .outputTextDone .. => true
  | .contentPartDone .. => true
  | .outputItemDoneMessage .. => true
  | .functionCallArgumentsDone .. => true
  | .outputItemDoneFunctionCall .. => true
  | .responseCompleted .. => true
  | _ => false

/-- Is the event one of the opening `*.added` events. -/
def isAddedEvent : StreamEvent → Bool
  | .outputItemAddedMessage .. => true
  | .contentPartAdded .. => true
  | .outputItemAddedFunctionCall .. => true
  | _ => false

/-- Item ids of function call `output_item.added` events, in order. -/
def fcAddedIds (es : List StreamEvent) : List String :=
  es.filterMap (fun e => match e with
    | .outputItemAddedFunctionCall _ i _ _ => some i
    | _ => none)

/-- Concatenation of a list of strings in order. -/
def concatStrs : List String → String
  | [] => ""
  | s :: rest => s ++ concatStrs rest

/-- Concatenation, in emission order, of the `delta` payloads of the
`function_call_arguments.delta` events of the given item id. -/
def argsDeltaConcat (es : List StreamEvent) (id : String) : String :=
  concatStrs (es.filterMap (fun e => match e with
    | .functionCallArgumentsDelta i _ d => if i == id then some d else none
    | _ => none))

/-- `arguments` payloads of the `function_call_arguments.done` events of
the given item id, in order. -/
def argsDoneArgs (es : List StreamEvent) (id : String) : List String :=
  es.filterMap (fun e => match e with
    | .functionCallArgumentsDone i _ args => if i == id then some args else none
    | _ => none)

/-- `arguments` payloads of the function call `output_item.done` events
of the given item id, in order. -/
def fcDoneArgs (es : List StreamEvent) (id : String) : List String :=
  es.filterMap (fun e => match e with
    | .outputItemDoneFunctionCall _ i args => if i == id then some args else none
    | _ => none)

/-- Item id carried by an event that references a function call item. -/
def fcEventId : StreamEvent → Option String
  | .outputItemAddedFunctionCall _ i _ _ => some i
  | .functionCallArgumentsDelta i _ _ => some i
  | .functionCallArgumentsDone i _ _ => some i
  | .outputItemDoneFunctionCall _ i _ => some i
  | _ => none

/-- `output_index` carried by an event that references a function call
item. -/
def fcEventOutputIndex : StreamEvent → Option Int
  | .outputItemAddedFunctionCall oi _ _ _ => some oi
  | .functionCallArgumentsDelta _ oi _ => some oi
  | .functionCallArgumentsDone _ oi _ => some oi
  | .outputItemDoneFunctionCall oi _ _ => some oi
  | _ => none

/-- `status` of a `response.completed` event. -/
def completedStatus : StreamEvent → Option String
  | .responseCompleted _ _ status _ _ _ => some status
  | _ => none

/-- `delta.role` of the first choice of a chunk (`""` when absent). -/
def roleOf (c : ChatCompletionsStreamResponse) : String :=
  match c.choices.head? with
  | some ch => ch.delta.role
  | none => ""

/-- Does the first choice of the chunk carry non-empty text content. -/
def contentB (c : ChatCompletionsStreamResponse) : Bool :=
  match c.choices.head? with
  | some ch => match ch.delta.content with
      | some s => s ≠ ""
      | none => false
  | none => false

/-- Does a delta carry non-empty text content. -/
def contentDeltaB (delta : ChatDelta) : Bool :=
  match delta.content with
  | some s => s ≠ ""
  | none => false

/-- Tool call deltas of the first choice of a chunk. -/
def toolCallsOf (c : ChatCompletionsStreamResponse) : List ToolCallDelta :=
  match c.choices.head? with
  | some ch => ch.delta.toolCalls
  | none => []

/-- Does a choice carry a non-empty finish reason. -/
def choiceFinishB (ch : ChatStreamChoice) : Bool :=
  match ch.finishReason with
  | some fr => fr ≠ ""
  | none => false

/-- Does the first choice of the chunk carry a non-empty finish reason. -/
def hasFinishB (c : ChatCompletionsStreamResponse) : Bool :=
  match c.choices.head? with
  | some ch => choiceFinishB ch
  | none => false

/-- Does some chunk of the stream carry non-empty text content. -/
def someContentB (cs : List ChatCompletionsStreamResponse) : Bool :=
  cs.any contentB

/-- The chunk with the finish reason of its first choice removed. -/
def stripFinish (c : ChatCompletionsStreamResponse) : ChatCompletionsStreamResponse :=
  { c with choices :=
      match c.choices with
      | [] => []
      | ch :: rest => { ch with finishReason := none } :: rest }

/-- Finish reason of the first choice of a chunk (`""` when absent). -/
def finishReasonOf (c : ChatCompletionsStreamResponse) : String :=
  match c.choices.head? with
  | some ch => ch.finishReason.getD ""
  | none => ""

/-- Does every chunk bearing tool calls come at or after a chunk with
non-empty text content (text announced before or inside the first
tool-call chunk). -/
def textBeforeToolsB (seenText : Bool) : List ChatCompletionsStreamResponse → Bool
  | [] => true
  | c :: rest =>
      let seenText2 := seenText || contentB c
      if (toolCallsOf c).length > 0 then seenText2 && textBeforeToolsB seenText2 rest
      else textBeforeToolsB seenText2 rest

/-- Walk of the tool call deltas of one chunk checking that every
previously unseen index extends the seen list consecutively. -/
def consecTools (seen : List Int) : List ToolCallDelta → Option (List Int)
  | [] => some seen
  | tc :: rest =>
      let idx := tc.index.getD 0
      if idx ∈ seen then consecTools seen rest
      else if idx = Int.ofNat seen.length then consecTools (seen ++ [idx]) rest
      else none

/-- Do the tool call indices of the stream first appear as 0, 1, 2, …
in order. -/
def toolIdxsConsecutiveB (seen : List Int) : List ChatCompletionsStreamResponse → Bool
  | [] => true
  | c :: rest =>
      match consecTools seen (toolCallsOf c) with
      | some seen2 => toolIdxsConsecutiveB seen2 rest
      | none => false

/-! ## Concrete streams and inputs used by the scenario statements -/

/-- The single chunk of scenario S1:
`{choices:[{delta:{role:"assistant",content:"Hi"},finish_reason:"stop"}]}`. -/
def c4Chunk : ChatCompletionsStreamResponse :=
  { model := ""
    choices := [{ delta := { role := "assistant", content := some "Hi",
                             reasoningContent := none, toolCalls := [] }
                  finishReason := some "stop" }]
    usage := none }

/-- A chunk whose delta carries only non-empty reasoning content, with a
terminal finish reason. -/
def c1Chunk : ChatCompletionsStreamResponse :=
  { model := ""
    choices := [{ delta := { role := "assistant", content := none,
                             reasoningContent := some "because", toolCalls := [] }
                  finishReason := some "stop" }]
    usage := none }

/-- A chunk that announces the assistant role with no content, bearing
the terminal finish reason. -/
def c2Chunk : ChatCompletionsStreamResponse :=
  { model := ""
    choices := [{ delta := { role := "assistant", content := none,
                             reasoningContent := none, toolCalls := [] }
                  finishReason := some "stop" }]
    usage := none }

/-- A chunk bearing a single tool call delta at index 0 with non-empty
arguments and no prior text content. -/
def c3Chunk : ChatCompletionsStreamResponse :=
  { model := ""
    choices := [{ delta := { role := "", content := none, reasoningContent := none,
                             toolCalls := [{ index := some 0, id := "call_a",
                                             function := { name := "f", arguments := "x" } }] }
                  finishReason := none }]
    usage := none }

/-- A chunk bearing a single tool call delta at index 0 with non-empty
arguments and the terminal finish reason, and no text content. -/
def c5Chunk : ChatCompletionsStreamResponse :=
  { model := ""
    choices := [{ delta := { role := "", content := none, reasoningContent := none,
                             toolCalls := [{ index := some 0, id := "call_a",
                                             function := { name := "f", arguments := "x" } }] }
                  finishReason := some "tool_calls" }]
    usage := none }

/-- A chunk with assistant role and non-empty text content and no finish
reason, preceding the tool-call chunk in the C3 witness stream. -/
def c3TextChunk : ChatCompletionsStreamResponse :=
  { model := ""
    choices := [{ delta := { role := "assistant", content := some "Hi",
                             reasoningContent := none, toolCalls := [] }
                  finishReason := none }]
    usage := none }

/-- The Responses `input` array of scenario S6. -/
def c8Input : Json :=
  .arr [ .obj [("type", .str "message"), ("role", .str "user"),
               ("content", .arr [.obj [("type", .str "input_text"), ("text", .str "Q")]])],
         .obj [("type", .str "function_call"), ("call_id", .str "c1"),
               ("name", .str "f"), ("arguments", .str "\x7b\x7d")],
         .obj [("type", .str "function_call_output"), ("call_id", .str "c1"),
               ("output", .str "ok")] ]

/-- A Responses request carrying the S6 input and nothing else. -/
def c8Request : OpenAIResponsesRequest :=
  { model := "gpt-test", input := some c8Input, instructions := none, stream := false
    maxOutputTokens := 0, temperature := none, topP := none, tools := none
    toolChoice := none, parallelToolCalls := none, reasoning := none
    metadata := none, user := "", store := none }

/-- Output array built by the non-streaming converter for a chat
response with a single choice. -/
def outputForChoice (seed : Nat) (now : Int) (chatId : String) (created : Option Int)
    (model : String) (msg : ChatTextMessage) (fr : String) (u : Usage)
    (req : Option OpenAIResponsesRequest) : List ResponsesOutput :=
  (ChatCompletionsResponseToResponsesResponseCore seed now
    { id := chatId, created := created, model := model,
      choices := [{ message := msg, finishReason := fr }], usage := u } req).output

/-- Relation between the adapter's tool call bookkeeping and the trace
of emitted events: keys and minted item ids are duplicate-free, ids are
counter tokens below `nextUUID`, the function call `output_item.added`
events match the registry in order, each argument accumulator equals the
concatenation of the argument delta events emitted for its item, every
function call event id is a minted token, and `outputIndex` counts the
registered tool calls. -/
structure FcInv (a : ChatToResponsesStreamAdapter) (es : List StreamEvent) : Prop where
  keysNodup : (a.toolCallItemIDs.map Prod.fst).Nodup
  argsKeys : a.toolCallArguments.map Prod.fst = a.toolCallItemIDs.map Prod.fst
  idsBound : ∀ p ∈ a.toolCallItemIDs, ∃ k, k < a.nextUUID ∧ p.2 = "fc_" ++ uuid k
  idsNodup : (a.toolCallItemIDs.map Prod.snd).Nodup
  addedIds : fcAddedIds es = a.toolCallItemIDs.map Prod.snd
  argsAcc : ∀ p ∈ a.toolCallItemIDs,
    lookupAssoc a.toolCallArguments p.1 = some (argsDeltaConcat es p.2)
  fcIdsBound : ∀ e ∈ es, ∀ i, fcEventId e = some i → ∃ k, k < a.nextUUID ∧ i = "fc_" ++ uuid k
  outIdx : a.outputIndex = Int.ofNat a.toolCallItemIDs.length

/-- Invariant for the output-index agreement theorem: on top of the
function call bookkeeping invariant, the map keys are exactly
`0, 1, ..., n-1` in insertion order, text content has been seen whenever
the map is non-empty, and every emitted event referencing a function
call item of id `i` carries `output_index = idx + 1` where `idx` is the
map key of `i`. -/
structure Inv3 (a : ChatToResponsesStreamAdapter) (es : List StreamEvent) : Prop where
  fc : FcInv a es
  keysConsec : a.toolCallItemIDs.map Prod.fst =
    (List.range a.toolCallItemIDs.length).map Int.ofNat
  textIfTools : a.toolCallItemIDs ≠ [] → a.hasTextContent = true
  evOK : ∀ e ∈ es, ∀ i, fcEventId e = some i →
    ∃ p ∈ a.toolCallItemIDs, p.2 = i ∧ fcEventOutputIndex e = some (p.1 + 1)

/-! ## Claim theorems -/

/-- C4: feeding the single chunk
`{choices:[{delta:{role:"assistant",content:"Hi"},finish_reason:"stop"}]}`
to a fresh adapter emits exactly `response.created`,
`response.in_progress`, `response.output_item.added`,
`response.content_part.added`, `response.output_text.delta` carrying
"Hi", `response.output_text.done`, `response.content_part.done`,
`response.output_item.done`, `response.completed` with status
`completed`, in this order. -/
theorem C4_single_chunk_text_stream (t : Int) :
    (runStream (NewChatToResponsesStreamAdapter t) [c4Chunk]).2 =
      [StreamEvent.responseCreated ("resp_" ++ uuid 0) t "",
       StreamEvent.responseInProgress ("resp_" ++ uuid 0) t "",
       StreamEvent.outputItemAddedMessage 0 ("msg_" ++ uuid 1),
       StreamEvent.contentPartAdded ("msg_" ++ uuid 1) 0 0 "output_text" "",
       StreamEvent.outputTextDelta ("msg_" ++ uuid 1) 0 0 "Hi",
       StreamEvent.outputTextDone ("msg_" ++ uuid 1) 0 0 "",
       StreamEvent.contentPartDone ("msg_" ++ uuid 1) 0 0 "output_text" "",
       StreamEvent.outputItemDoneMessage 0 ("msg_" ++ uuid 1),
       StreamEvent.responseCompleted ("resp_" ++ uuid 0) t "completed" ""
         [CompletedOutputItem.message ("msg_" ++ uuid 1)] none] ∧
    (runStream (NewChatToResponsesStreamAdapter t) [c4Chunk]).2.map eventType =
      ["response.created", "response.in_progress", "response.output_item.added",
       "response.content_part.added", "response.output_text.delta",
       "response.output_text.done", "response.content_part.done",
       "response.output_item.done", "response.completed"] :=
  ⟨rfl, rfl⟩

/-- C1 (amended): `ConvertChunk` ignores `delta.reasoning_content`
entirely — removing the reasoning content from a chunk changes neither
the adapter state nor the emitted events, so no reasoning-specific
event is ever produced. -/
theorem C1_reasoning_ignored (a : ChatToResponsesStreamAdapter)
    (c : ChatCompletionsStreamResponse) :
    ConvertChunk a (some (eraseReasoningChunk c)) = ConvertChunk a (some c) := by
  cases c with
  | mk model choices usage =>
    cases choices with
    | nil => rfl
    | cons ch rest =>
      cases ch with
      | mk delta fin =>
        cases delta with
        | mk role content rc tools => rfl

/-- C1 counterexample: a chunk whose delta carries the non-empty
reasoning content "because" produces no `response.reasoning.delta`
event and no `response.content_part.added` with part type `reasoning`;
the batch is just the lifecycle events of an empty message. The claim
requires a `reasoning` part added event and a reasoning delta event on
this input. -/
theorem C1_counterexample :
    c1Chunk.choices.head?.map (fun ch => ch.delta.reasoningContent) = some (some "because") ∧
    ((runStream (NewChatToResponsesStreamAdapter 0) [c1Chunk]).2.countP
        (fun e => eventType e == "response.reasoning.delta")) = 0 ∧
    ((runStream (NewChatToResponsesStreamAdapter 0) [c1Chunk]).2.countP
        (fun e => match e with
          | .contentPartAdded _ _ _ partType _ => partType == "reasoning"
          | _ => false)) = 0 ∧
    (runStream (NewChatToResponsesStreamAdapter 0) [c1Chunk]).2.map eventType =
      ["response.created", "response.in_progress", "response.output_item.added",
       "response.content_part.added", "response.completed"] :=
  ⟨rfl, rfl, rfl, rfl⟩

/-- C6: both the streaming `response.completed` event and the
non-streaming converter map finish reason `length` to status
`incomplete`, `content_filter` to `failed`, and any other finish reason
(in particular `stop` and `tool_calls`) to `completed`. -/
theorem C6_status_mapping :
    (∀ (a : ChatToResponsesStreamAdapter) (u : Option Usage) (fr : String),
        completedStatus (createResponseCompletedEvent a u fr) =
          some (if fr = "length" then "incomplete"
                else if fr = "content_filter" then "failed" else "completed")) ∧
    (∀ (seed : Nat) (now : Int) (chatId : String) (created : Option Int) (model : String)
        (msg : ChatTextMessage) (fr : String) (u : Usage)
        (req : Option OpenAIResponsesRequest),
        (ChatCompletionsResponseToResponsesResponseCore seed now
            { id := chatId, created := created, model := model,
              choices := [{ message := msg, finishReason := fr }], usage := u } req).status =
          (if fr = "length" then "incomplete"
           else if fr = "content_filter" then "failed" else "completed")) :=
  ⟨fun _ _ _ => rfl, fun _ _ _ _ _ _ _ _ _ => rfl⟩

/-- C7 (amended): the non-streaming converter prepends a `message`
output item exactly when the assistant message has non-empty text
content OR there are no tool calls; when present it precedes the
function call items (every later item is a `function_call`), and when
reasoning content is present the message item's first content part is
the `reasoning` part. Reasoning content alone does not trigger the
message item: with tool calls and no text, the output has no message
item. -/
theorem C7_message_item_condition (seed : Nat) (now : Int) (chatId : String)
    (created : Option Int) (model : String) (msg : ChatTextMessage) (fr : String)
    (u : Usage) (req : Option OpenAIResponsesRequest) :
    ((outputForChoice seed now chatId created model msg fr u req).head?.map
        (fun o => o.type) = some "message"
      ↔ (msg.stringContent ≠ "" ∨ msg.toolCalls = [])) ∧
    ((msg.stringContent ≠ "" ∨ msg.toolCalls = []) →
      ∀ o ∈ (outputForChoice seed now chatId created model msg fr u req).tail,
        o.type = "function_call") ∧
    (¬(msg.stringContent ≠ "" ∨ msg.toolCalls = []) →
      ∀ o ∈ outputForChoice seed now chatId created model msg fr u req,
        o.type = "function_call") ∧
    (msg.reasoningContent ≠ "" → (msg.stringContent ≠ "" ∨ msg.toolCalls = []) →
      ((outputForChoice seed now chatId created model msg fr u req).head?.bind
          (fun o => o.content.head?)).map (fun p => p.type) = some "reasoning") := by
  by_cases htext : msg.stringContent = ""
  · by_cases htc : msg.toolCalls = []
    · -- no text, no tool calls: message item with possibly empty content
      refine ⟨?_, ?_, ?_, ?_⟩
      · simp [outputForChoice, ChatCompletionsResponseToResponsesResponseCore, htext, htc]
      · intro _ o ho
        simp [outputForChoice, ChatCompletionsResponseToResponsesResponseCore, htext, htc] at ho
      · intro hcond
        exact absurd (Or.inr htc) hcond
      · intro hr _
        simp [outputForChoice, ChatCompletionsResponseToResponsesResponseCore, htext, htc, hr]
    · -- no text, tool calls present: no message item
      have hcond : ¬(msg.stringContent ≠ "" ∨ msg.toolCalls = []) := by
        simp [htext, htc]
      have hAllOut : ∀ o ∈ outputForChoice seed now chatId created model msg fr u req,
          o.type = "function_call" := by
        intro o ho
        simp only [outputForChoice, ChatCompletionsResponseToResponsesResponseCore] at ho
        simp [htext, htc, List.length_eq_zero, List.mem_map] at ho
        obtain ⟨p, w, _, rfl⟩ := ho
        rfl
      refine ⟨?_, ?_, ?_, ?_⟩
      · rw [iff_false_intro hcond, iff_false]
        intro hhead
        obtain ⟨o, ho1, ho2⟩ := Option.map_eq_some'.mp hhead
        have hfc := hAllOut o (List.mem_of_mem_head? ho1)
        rw [hfc] at ho2
        exact absurd ho2 (by decide)
      · intro hcond2
        exact absurd hcond2 hcond
      · intro _
        exact hAllOut
      · intro _ hcond2
        exact absurd hcond2 hcond
  · -- text present: message item first, function calls after
    refine ⟨?_, ?_, ?_, ?_⟩
    · simp [outputForChoice, ChatCompletionsResponseToResponsesResponseCore, htext]
    · intro _ o ho
      simp only [outputForChoice, ChatCompletionsResponseToResponsesResponseCore] at ho
      simp [htext, List.mem_map] at ho
      obtain ⟨p, w, _, rfl⟩ := ho
      rfl
    · intro hcond
      exact absurd (Or.inl htext) hcond
    · intro hr _
      simp [outputForChoice, ChatCompletionsResponseToResponsesResponseCore, htext, hr]

/-- C7 counterexample: a chat response whose assistant message has
reasoning content "why" and a tool call but no text content yields an
output consisting of the function call item only — no message item, so
the reasoning content is dropped. The claim requires a message item
carrying the reasoning part on this input. -/
theorem C7_counterexample :
    ({ stringContent := "", reasoningContent := "why",
       toolCalls := [{ id := "c1", type := "function",
                       function := { name := "f", arguments := "A" } }] } :
        ChatTextMessage).reasoningContent ≠ "" ∧
    (outputForChoice 0 99 "" (some 3) "m"
        { stringContent := "", reasoningContent := "why",
          toolCalls := [{ id := "c1", type := "function",
                          function := { name := "f", arguments := "A" } }] }
        "tool_calls"
        { promptTokens := 1, completionTokens := 2, totalTokens := 3,
          inputTokens := 0, outputTokens := 0 } none).map (fun o => o.type) =
      ["function_call"] :=
  ⟨by decide, rfl⟩

/-- Witness for C7: with reasoning content "why", no text and no tool
calls, the message item is present and its first content part is the
reasoning part; nothing follows it. -/
theorem C7_message_item_condition_witness :
    (∀ o ∈ (outputForChoice 0 99 "" (some 3) "m"
        { stringContent := "", reasoningContent := "why", toolCalls := [] }
        "stop" { promptTokens := 1, completionTokens := 2, totalTokens := 3,
                 inputTokens := 0, outputTokens := 0 } none).tail,
      o.type = "function_call") ∧
    ((outputForChoice 0 99 "" (some 3) "m"
        { stringContent := "", reasoningContent := "why", toolCalls := [] }
        "stop" { promptTokens := 1, completionTokens := 2, totalTokens := 3,
                 inputTokens := 0, outputTokens := 0 } none).head?.bind
        (fun o => o.content.head?)).map (fun p => p.type) = some "reasoning" :=
  ⟨(C7_message_item_condition 0 99 "" (some 3) "m"
      { stringContent := "", reasoningContent := "why", toolCalls := [] } "stop"
      { promptTokens := 1, completionTokens := 2, totalTokens := 3,
        inputTokens := 0, outputTokens := 0 } none).2.1 (Or.inr rfl),
   (C7_message_item_condition 0 99 "" (some 3) "m"
      { stringContent := "", reasoningContent := "why", toolCalls := [] } "stop"
      { promptTokens := 1, completionTokens := 2, totalTokens := 3,
        inputTokens := 0, outputTokens := 0 } none).2.2.2 (by decide) (Or.inr rfl)⟩

/-- C8 counterexample: on the S6 input items, the produced user message
carries the converted content part list (a single `text` part with text
"Q"), not a flattened plain string — its content differs from every
plain string, in particular from "Q". -/
theorem C8_counterexample :
    (parseResponsesInput (some c8Input)).1.head?.map (fun m => m.content) =
      some (MessageContent.parts [Json.obj [("type", Json.str "text"), ("text", Json.str "Q")]]) ∧
    ∀ s : String, (parseResponsesInput (some c8Input)).1.head?.map (fun m => m.content) ≠
      some (MessageContent.str s) := by
  refine ⟨rfl, ?_⟩
  intro s h
  have h2 : some (MessageContent.parts [Json.obj [("type", Json.str "text"), ("text", Json.str "Q")]]) =
      some (MessageContent.str s) := h
  injection h2 with h3
  exact MessageContent.noConfusion h3

/-- C8 (amended): converting a Responses request whose input is the S6
item array yields exactly the chat messages user / assistant-with-tool-
call / tool of the claim, except that the user message content is the
converted one-element part list `[{type:"text",text:"Q"}]` rather than
the plain string "Q". -/
theorem C8_input_items_conversion :
    ResponsesRequestToChatCompletionsRequest (some c8Request) =
      (some { model := "gpt-test"
              messages :=
                [{ role := "user",
                   content := .parts [Json.obj [("type", Json.str "text"),
                                                ("text", Json.str "Q")]],
                   toolCalls := none, toolCallId := "" },
                 { role := "assistant", content := .unset,
                   toolCalls := some [{ id := "c1", type := "function",
                                        function := { name := "f",
                                                      arguments := "\x7b\x7d" } }],
                   toolCallId := "" },
                 { role := "tool", content := .str "ok",
                   toolCalls := none, toolCallId := "c1" }]
              stream := false, maxTokens := 0, temperature := none, topP := 0
              tools := [], toolChoice := none, user := "", parallelTooCalls := none
              store := none, metadata := none, reasoningEffort := "" }, none) := rfl

/-- Every error result of `parseResponsesInput` is one of the two input
shape errors. -/
theorem parseResponsesInput_snd_cases (inp : Option Json) :
    (parseResponsesInput inp).2 = none ∨
    (parseResponsesInput inp).2 = some "cannot unmarshal input items" ∨
    (parseResponsesInput inp).2 = some "input must be a string or array" := by
  cases inp with
  | none => exact Or.inl rfl
  | some j =>
      cases j with
      | str s => exact Or.inl rfl
      | arr elems =>
          cases h : unmarshalObjArray elems with
          | none =>
              refine Or.inr (Or.inl ?_)
              simp [parseResponsesInput, h]
          | some items =>
              refine Or.inl ?_
              simp [parseResponsesInput, h]
      | num n => exact Or.inr (Or.inr rfl)
      | bool b => exact Or.inr (Or.inr rfl)
      | null => exact Or.inr (Or.inr rfl)
      | obj f => exact Or.inr (Or.inr rfl)

/-- Error component of the converter on a non-nil request: the model
check, then the input parse errors. -/
theorem responsesToChat_snd_eq (r : OpenAIResponsesRequest) :
    (ResponsesRequestToChatCompletionsRequest (some r)).2 =
      if r.model = "" then some "model is required"
      else
        match r.input with
        | none => none
        | some j => (parseResponsesInput (some j)).2 := by
  by_cases hm : r.model = ""
  · simp [ResponsesRequestToChatCompletionsRequest, hm]
  · cases hi : r.input with
    | none => simp [ResponsesRequestToChatCompletionsRequest, hm, hi]
    | some j =>
        cases hp : parseResponsesInput (some j) with
        | mk msgs err =>
            cases err with
            | none => simp [ResponsesRequestToChatCompletionsRequest, hm, hi, hp]
            | some e => simp [ResponsesRequestToChatCompletionsRequest, hm, hi, hp]

/-- C9: the converter returns `request is nil` exactly for a nil
request, `model is required` exactly for a non-nil request with empty
model, the input shape error when a non-empty `input` is neither a JSON
string nor a JSON array, and in every error case the returned chat
request is nil. -/
theorem C9_error_behavior :
    (∀ req : Option OpenAIResponsesRequest,
        (ResponsesRequestToChatCompletionsRequest req).2 = some "request is nil" ↔
          req = none) ∧
    (∀ r : OpenAIResponsesRequest,
        (ResponsesRequestToChatCompletionsRequest (some r)).2 = some "model is required" ↔
          r.model = "") ∧
    (∀ (r : OpenAIResponsesRequest) (j : Json),
        r.model ≠ "" → r.input = some j →
        getJsonType j ≠ "string" → getJsonType j ≠ "array" →
        (ResponsesRequestToChatCompletionsRequest (some r)).2 =
          some "input must be a string or array") ∧
    (∀ (req : Option OpenAIResponsesRequest) (e : String),
        (ResponsesRequestToChatCompletionsRequest req).2 = some e →
        (ResponsesRequestToChatCompletionsRequest req).1 = none) := by
  refine ⟨?_, ?_, ?_, ?_⟩
  · intro req
    cases req with
    | none => simp [ResponsesRequestToChatCompletionsRequest]
    | some r =>
        constructor
        · intro h
          exfalso
          rw [responsesToChat_snd_eq] at h
          by_cases hm : r.model = ""
          · rw [if_pos hm] at h
            exact absurd (Option.some.inj h) (by decide)
          · rw [if_neg hm] at h
            cases hi : r.input with
            | none =>
                rw [hi] at h
                exact Option.noConfusion h
            | some j =>
                rw [hi] at h
                have h2 : (parseResponsesInput (some j)).2 = some "request is nil" := h
                rcases parseResponsesInput_snd_cases (some j) with hc | hc | hc <;> rw [hc] at h2
                · exact Option.noConfusion h2
                · exact absurd (Option.some.inj h2) (by decide)
                · exact absurd (Option.some.inj h2) (by decide)
        · intro h
          exact Option.noConfusion h
  · intro r
    rw [responsesToChat_snd_eq]
    constructor
    · intro h
      by_contra hm
      rw [if_neg hm] at h
      cases hi : r.input with
      | none =>
          rw [hi] at h
          exact Option.noConfusion h
      | some j =>
          rw [hi] at h
          have h2 : (parseResponsesInput (some j)).2 = some "model is required" := h
          rcases parseResponsesInput_snd_cases (some j) with hc | hc | hc <;> rw [hc] at h2
          · exact Option.noConfusion h2
          · exact absurd (Option.some.inj h2) (by decide)
          · exact absurd (Option.some.inj h2) (by decide)
    · intro hm
      rw [if_pos hm]
  · intro r j hm hi hs ha
    rw [responsesToChat_snd_eq, if_neg hm, hi]
    cases j with
    | str s => exact absurd rfl hs
    | arr l => exact absurd rfl ha
    | num n => rfl
    | bool b => rfl
    | null => rfl
    | obj f => rfl
  · intro req e h
    cases req with
    | none => rfl
    | some r =>
        by_cases hm : r.model = ""
        · simp [ResponsesRequestToChatCompletionsRequest, hm]
        · cases hi : r.input with
          | none =>
              rw [responsesToChat_snd_eq, if_neg hm, hi] at h
              exact Option.noConfusion h
          | some j =>
              cases hp : parseResponsesInput (some j) with
              | mk msgs err =>
                  cases err with
                  | none =>
                      rw [responsesToChat_snd_eq, if_neg hm, hi] at h
                      have h2 : (parseResponsesInput (some j)).2 = some e := h
                      rw [hp] at h2
                      exact Option.noConfusion h2
                  | some e2 =>
                      simp [ResponsesRequestToChatCompletionsRequest, hm, hi, hp]

/-- Witness for C9: a request with a model and a numeric `input` gets
the input shape error and no chat request. -/
theorem C9_error_behavior_witness :
    (ResponsesRequestToChatCompletionsRequest
        (some { c8Request with model := "m", input := some (Json.num 5) })).2 =
      some "input must be a string or array" ∧
    (ResponsesRequestToChatCompletionsRequest
        (some { c8Request with model := "m", input := some (Json.num 5) })).1 = none :=
  ⟨C9_error_behavior.2.2.1 _ (Json.num 5) (by decide) rfl (by decide) (by decide),
   C9_error_behavior.2.2.2 _ "input must be a string or array"
     (C9_error_behavior.2.2.1 _ (Json.num 5) (by decide) rfl (by decide) (by decide))⟩

/-- `unmarshalObjArray` splits over list append. -/
theorem unmarshalObjArray_append (l1 l2 : List Json) :
    unmarshalObjArray (l1 ++ l2) =
      match unmarshalObjArray l1, unmarshalObjArray l2 with
      | some ps, some qs => some (ps ++ qs)
      | _, _ => none := by
  induction l1 with
  | nil =>
      simp only [List.nil_append, unmarshalObjArray]
      cases unmarshalObjArray l2 <;> rfl
  | cons j rest ih =>
      rw [List.cons_append]
      simp only [unmarshalObjArray, List.append_eq]
      rw [ih]
      cases asObjFields j <;> cases unmarshalObjArray rest <;> cases unmarshalObjArray l2 <;> rfl

/-- A `function_call` input item with an empty `call_id` or an empty
`name` leaves the accumulated message list unchanged. -/
theorem processInputItem_drops_invalid (ms : List Message) (item : List (String × Json))
    (htype : getStrField item "type" = "function_call")
    (hdrop : getStrField item "call_id" = "" ∨ getStrField item "name" = "") :
    processInputItem ms item = ms := by
  rcases hdrop with h | h <;> simp [processInputItem, htype, h]

/-- Dropping an invalid `function_call` item from the input array does
not change the parse result. -/
theorem parseResponsesInput_drop_invalid (pre post : List Json) (bad : List (String × Json))
    (htype : getStrField bad "type" = "function_call")
    (hdrop : getStrField bad "call_id" = "" ∨ getStrField bad "name" = "") :
    parseResponsesInput (some (.arr (pre ++ Json.obj bad :: post))) =
      parseResponsesInput (some (.arr (pre ++ post))) := by
  simp only [parseResponsesInput]
  rw [unmarshalObjArray_append, unmarshalObjArray_append]
  cases hpre : unmarshalObjArray pre with
  | none => rfl
  | some ps =>
      have hmid : unmarshalObjArray (Json.obj bad :: post) =
          match unmarshalObjArray post with
          | some qs => some (bad :: qs)
          | none => none := by
        simp only [unmarshalObjArray, asObjFields]
        cases unmarshalObjArray post <;> rfl
      rw [hmid]
      cases hpost : unmarshalObjArray post with
      | none => rfl
      | some qs =>
          simp only [List.foldl_append, List.foldl_cons,
            processInputItem_drops_invalid _ bad htype hdrop]

/-- C10: a `function_call` input item whose `call_id` or `name` is empty
is silently dropped — the converted request is identical to the one for
the input without that item (no assistant message or tool call entry for
it, no error, later items processed unchanged). -/
theorem C10_drop_invalid_function_call (r : OpenAIResponsesRequest)
    (pre post : List Json) (bad : List (String × Json))
    (htype : getStrField bad "type" = "function_call")
    (hdrop : getStrField bad "call_id" = "" ∨ getStrField bad "name" = "") :
    ResponsesRequestToChatCompletionsRequest
        (some { r with input := some (.arr (pre ++ Json.obj bad :: post)) }) =
      ResponsesRequestToChatCompletionsRequest
        (some { r with input := some (.arr (pre ++ post)) }) := by
  have hp := parseResponsesInput_drop_invalid pre post bad htype hdrop
  simp only [ResponsesRequestToChatCompletionsRequest]
  rw [hp]

/-- Witness for C10: dropping a `function_call` item with empty
`call_id` from a three-item input leaves the conversion unchanged. -/
theorem C10_drop_invalid_function_call_witness :
    ResponsesRequestToChatCompletionsRequest
        (some { c8Request with input := some (.arr
          [Json.obj [("type", Json.str "message"), ("content", Json.str "hello")],
           Json.obj [("type", Json.str "function_call"), ("call_id", Json.str ""),
                     ("name", Json.str "f")],
           Json.obj [("type", Json.str "function_call_output"),
                     ("call_id", Json.str "c9"), ("output", Json.str "out")]]) }) =
      ResponsesRequestToChatCompletionsRequest
        (some { c8Request with input := some (.arr
          [Json.obj [("type", Json.str "message"), ("content", Json.str "hello")],
           Json.obj [("type", Json.str "function_call_output"),
                     ("call_id", Json.str "c9"), ("output", Json.str "out")]]) }) :=
  C10_drop_invalid_function_call _
    [Json.obj [("type", Json.str "message"), ("content", Json.str "hello")]]
    [Json.obj [("type", Json.str "function_call_output"),
               ("call_id", Json.str "c9"), ("output", Json.str "out")]]
    [("type", Json.str "function_call"), ("call_id", Json.str ""), ("name", Json.str "f")]
    rfl (Or.inl rfl)

/-! ## Association list lemmas -/

theorem lookupAssoc_eq_none (m : List (Int × String)) (k : Int) :
    lookupAssoc m k = none ↔ k ∉ m.map Prod.fst := by
  induction m with
  | nil => simp [lookupAssoc]
  | cons p rest ih =>
      by_cases h : p.1 = k
      · simp [lookupAssoc, h]
      · rw [lookupAssoc, if_neg h, ih, List.map_cons]
        constructor
        · intro hnot hmem
          rcases List.mem_cons.mp hmem with he | he
          · exact h he.symm
          · exact hnot he
        · intro hnot hmem
          exact hnot (List.mem_cons_of_mem _ hmem)

theorem mem_of_lookupAssoc {m : List (Int × String)} {k : Int} {v : String}
    (h : lookupAssoc m k = some v) : (k, v) ∈ m := by
  induction m with
  | nil => simp [lookupAssoc] at h
  | cons p rest ih =>
      cases p with
      | mk k' v' =>
          by_cases hk : k' = k
          · rw [lookupAssoc, if_pos hk] at h
            cases hk
            cases Option.some.inj h
            exact List.mem_cons_self _ _
          · rw [lookupAssoc, if_neg hk] at h
            exact List.mem_cons_of_mem _ (ih h)

theorem lookupAssoc_of_mem {m : List (Int × String)} {k : Int} {v : String}
    (hnd : (m.map Prod.fst).Nodup) (hmem : (k, v) ∈ m) : lookupAssoc m k = some v := by
  induction m with
  | nil => simp at hmem
  | cons p rest ih =>
      rw [List.map_cons, List.nodup_cons] at hnd
      rcases List.mem_cons.mp hmem with h | h
      · cases h
        simp [lookupAssoc]
      · have hk : p.1 ≠ k := by
          intro he
          exact hnd.1 (he ▸ List.mem_map_of_mem Prod.fst h)
        rw [lookupAssoc, if_neg hk]
        exact ih hnd.2 h

theorem lookupAssoc_set_self (m : List (Int × String)) (k : Int) (v : String) :
    lookupAssoc (setAssoc m k v) k = some v := by
  induction m with
  | nil => simp [setAssoc, lookupAssoc]
  | cons p rest ih =>
      by_cases h : p.1 = k
      · simp [setAssoc, h, lookupAssoc]
      · simp [setAssoc, h, lookupAssoc, ih]

theorem lookupAssoc_set_ne (m : List (Int × String)) (k : Int) (v : String)
    {k' : Int} (h : k' ≠ k) : lookupAssoc (setAssoc m k v) k' = lookupAssoc m k' := by
  induction m with
  | nil => simp [setAssoc, lookupAssoc, Ne.symm h]
  | cons p rest ih =>
      by_cases hp : p.1 = k
      · rw [setAssoc, if_pos hp, lookupAssoc, lookupAssoc,
          if_neg (fun hh : k = k' => h hh.symm), hp, if_neg (fun hh : k = k' => h hh.symm)]
      · rw [setAssoc, if_neg hp, lookupAssoc, lookupAssoc]
        by_cases hq : p.1 = k'
        · rw [if_pos hq, if_pos hq]
        · rw [if_neg hq, if_neg hq, ih]

theorem setAssoc_not_mem (m : List (Int × String)) (k : Int) (v : String)
    (h : k ∉ m.map Prod.fst) : setAssoc m k v = m ++ [(k, v)] := by
  induction m with
  | nil => rfl
  | cons p rest ih =>
      simp only [List.map_cons, List.mem_cons] at h
      push_neg at h
      rw [setAssoc, if_neg (fun hh : p.1 = k => h.1 hh.symm), List.cons_append, ih h.2]

theorem setAssoc_keys_of_mem (m : List (Int × String)) (k : Int) (v : String)
    (h : k ∈ m.map Prod.fst) : (setAssoc m k v).map Prod.fst = m.map Prod.fst := by
  induction m with
  | nil => simp at h
  | cons p rest ih =>
      by_cases hp : p.1 = k
      · simp [setAssoc, hp]
      · have h2 : k ∈ rest.map Prod.fst := by
          rcases List.mem_cons.mp h with hh | hh
          · exact absurd hh.symm hp
          · exact hh
        simp [setAssoc, hp, ih h2]

/-! ## Token and concatenation lemmas -/

theorem uuid_length (n : Nat) : (uuid n).length = n := by
  simp [uuid, String.length]

theorem fcId_inj {a b : Nat} (h : "fc_" ++ uuid a = "fc_" ++ uuid b) : a = b := by
  have h2 : ("fc_" ++ uuid a).length = ("fc_" ++ uuid b).length := by rw [h]
  simpa [String.length_append, uuid_length] using h2

theorem concatStrs_append (l1 l2 : List String) :
    concatStrs (l1 ++ l2) = concatStrs l1 ++ concatStrs l2 := by
  induction l1 with
  | nil => simp [concatStrs]
  | cons s rest ih => simp [concatStrs, ih, String.append_assoc]

/-! ## Event filter lemmas -/

theorem fcAddedIds_append (es1 es2 : List StreamEvent) :
    fcAddedIds (es1 ++ es2) = fcAddedIds es1 ++ fcAddedIds es2 := by
  simp [fcAddedIds, List.filterMap_append]

theorem argsDeltaConcat_append (es1 es2 : List StreamEvent) (id : String) :
    argsDeltaConcat (es1 ++ es2) id = argsDeltaConcat es1 id ++ argsDeltaConcat es2 id := by
  simp [argsDeltaConcat, List.filterMap_append, concatStrs_append]

theorem fcAddedIds_eq_nil (es : List StreamEvent)
    (h : ∀ e ∈ es, isAddedEvent e = false) : fcAddedIds es = [] := by
  rw [fcAddedIds, List.filterMap_eq_nil_iff]
  intro e he
  have := h e he
  cases e <;> simp_all [isAddedEvent]

theorem argsDeltaConcat_eq_empty (es : List StreamEvent) (id : String)
    (h : ∀ e ∈ es, ∀ i, fcEventId e = some i → i ≠ id) :
    argsDeltaConcat es id = "" := by
  have : (es.filterMap (fun e => match e with
      | .functionCallArgumentsDelta i _ d => if i == id then some d else none
      | _ => none)) = [] := by
    rw [List.filterMap_eq_nil_iff]
    intro e he
    cases e with
    | functionCallArgumentsDelta i oi d =>
        have hne := h _ he i rfl
        simp [hne]
    | _ => rfl
  rw [argsDeltaConcat, this]
  rfl

/-! ## Computation lemmas for the tool call loop -/

theorem processToolCall_old_noargs (a : ChatToResponsesStreamAdapter) (tc : ToolCallDelta)
    {itemID : String}
    (hl : lookupAssoc a.toolCallItemIDs (tc.index.getD 0) = some itemID)
    (hargs : tc.function.arguments = "") :
    processToolCall a tc = (a, []) := by
  simp [processToolCall, hl, hargs]

theorem processToolCall_old_args (a : ChatToResponsesStreamAdapter) (tc : ToolCallDelta)
    {itemID : String}
    (hl : lookupAssoc a.toolCallItemIDs (tc.index.getD 0) = some itemID)
    (hargs : tc.function.arguments ≠ "") :
    processToolCall a tc =
      ({ a with toolCallArguments := (setAssoc a.toolCallArguments (tc.index.getD 0)
            (((lookupAssoc a.toolCallArguments (tc.index.getD 0)).getD "") ++
              tc.function.arguments)) },
       [StreamEvent.functionCallArgumentsDelta itemID
          (if a.hasTextContent then tc.index.getD 0 + 1 else tc.index.getD 0)
          tc.function.arguments]) := by
  simp [processToolCall, hl, hargs, createFunctionCallArgumentsDeltaEvent]

theorem processToolCall_new_noargs (a : ChatToResponsesStreamAdapter) (tc : ToolCallDelta)
    (hl : lookupAssoc a.toolCallItemIDs (tc.index.getD 0) = none)
    (hargs : tc.function.arguments = "") :
    processToolCall a tc =
      ({ a with
          toolCallItemIDs := (setAssoc a.toolCallItemIDs (tc.index.getD 0)
            ("fc_" ++ uuid a.nextUUID))
          toolCallArguments := setAssoc a.toolCallArguments (tc.index.getD 0) ""
          outputIndex := a.outputIndex + 1
          nextUUID := a.nextUUID + 1 },
       [StreamEvent.outputItemAddedFunctionCall (a.outputIndex + 1)
          ("fc_" ++ uuid a.nextUUID) tc.id tc.function.name]) := by
  simp [processToolCall, hl, hargs, createFunctionCallAddedEvent, lookupAssoc_set_self]

theorem processToolCall_new_args (a : ChatToResponsesStreamAdapter) (tc : ToolCallDelta)
    (hl : lookupAssoc a.toolCallItemIDs (tc.index.getD 0) = none)
    (hargs : tc.function.arguments ≠ "") :
    processToolCall a tc =
      ({ a with
          toolCallItemIDs := (setAssoc a.toolCallItemIDs (tc.index.getD 0)
            ("fc_" ++ uuid a.nextUUID))
          toolCallArguments := (setAssoc
            (setAssoc a.toolCallArguments (tc.index.getD 0) "") (tc.index.getD 0)
            ("" ++ tc.function.arguments))
          outputIndex := a.outputIndex + 1
          nextUUID := a.nextUUID + 1 },
       [StreamEvent.outputItemAddedFunctionCall (a.outputIndex + 1)
          ("fc_" ++ uuid a.nextUUID) tc.id tc.function.name,
        StreamEvent.functionCallArgumentsDelta ("fc_" ++ uuid a.nextUUID)
          (if a.hasTextContent then tc.index.getD 0 + 1 else tc.index.getD 0)
          tc.function.arguments]) := by
  simp [processToolCall, hl, hargs, createFunctionCallAddedEvent,
    createFunctionCallArgumentsDeltaEvent, lookupAssoc_set_self]

theorem argsDeltaConcat_singleton_delta (i : String) (oi : Int) (d id : String) :
    argsDeltaConcat [StreamEvent.functionCallArgumentsDelta i oi d] id =
      if i = id then d else "" := by
  by_cases h : i = id <;> simp [argsDeltaConcat, concatStrs, h]

theorem FcInv_processToolCall (a : ChatToResponsesStreamAdapter) (tc : ToolCallDelta)
    (es : List StreamEvent) (h : FcInv a es) :
    FcInv (processToolCall a tc).1 (es ++ (processToolCall a tc).2) := by
  cases hl : lookupAssoc a.toolCallItemIDs (tc.index.getD 0) with
  | some itemID =>
      have hmemEntry : (tc.index.getD 0, itemID) ∈ a.toolCallItemIDs := mem_of_lookupAssoc hl
      have hidxKeys : tc.index.getD 0 ∈ a.toolCallItemIDs.map Prod.fst :=
        List.mem_map_of_mem Prod.fst hmemEntry
      by_cases hargs : tc.function.arguments = ""
      · rw [processToolCall_old_noargs a tc hl hargs]
        simpa using h
      · rw [processToolCall_old_args a tc hl hargs]
        refine ⟨h.keysNodup, ?_, h.idsBound, h.idsNodup, ?_, ?_, ?_, h.outIdx⟩
        · show (setAssoc a.toolCallArguments (tc.index.getD 0) _).map Prod.fst = _
          rw [setAssoc_keys_of_mem _ _ _ (h.argsKeys ▸ hidxKeys)]
          exact h.argsKeys
        · rw [fcAddedIds_append]
          simpa [fcAddedIds] using h.addedIds
        · intro p hp
          by_cases hpidx : p.1 = tc.index.getD 0
          · have hpv : p.2 = itemID := by
              have h1 : lookupAssoc a.toolCallItemIDs p.1 = some p.2 := by
                cases p with
                | mk pk pv => exact lookupAssoc_of_mem h.keysNodup hp
              rw [hpidx, hl] at h1
              exact (Option.some.inj h1).symm
            show lookupAssoc (setAssoc a.toolCallArguments (tc.index.getD 0) _) p.1 = _
            rw [hpidx, lookupAssoc_set_self, argsDeltaConcat_append, hpv,
              argsDeltaConcat_singleton_delta]
            have hold := h.argsAcc p hp
            rw [hpidx] at hold
            rw [hold]
            simp [hpv]
          · show lookupAssoc (setAssoc a.toolCallArguments (tc.index.getD 0) _) p.1 = _
            rw [lookupAssoc_set_ne _ _ _ hpidx, argsDeltaConcat_append,
              argsDeltaConcat_singleton_delta]
            have hne : itemID ≠ p.2 := by
              intro he
              have h2 := List.inj_on_of_nodup_map h.idsNodup hmemEntry hp he
              exact hpidx (congrArg Prod.fst h2).symm
            rw [if_neg hne]
            have hold := h.argsAcc p hp
            rw [hold]
            simp
        · intro e he i hei
          rcases List.mem_append.mp he with he | he
          · exact h.fcIdsBound e he i hei
          · rcases List.mem_singleton.mp he with rfl
            have hii : itemID = i := by
              simpa [fcEventId] using hei
            cases hii
            obtain ⟨k, hk, hkid⟩ := h.idsBound _ hmemEntry
            exact ⟨k, hk, hkid⟩
  | none =>
      have hidxKeys : tc.index.getD 0 ∉ a.toolCallItemIDs.map Prod.fst :=
        (lookupAssoc_eq_none _ _).mp hl
      have hidxArgsKeys : tc.index.getD 0 ∉ a.toolCallArguments.map Prod.fst := by
        rw [h.argsKeys]
        exact hidxKeys
      have hsetIds : setAssoc a.toolCallItemIDs (tc.index.getD 0) ("fc_" ++ uuid a.nextUUID) =
          a.toolCallItemIDs ++ [(tc.index.getD 0, "fc_" ++ uuid a.nextUUID)] :=
        setAssoc_not_mem _ _ _ hidxKeys
      have hsetArgs : setAssoc a.toolCallArguments (tc.index.getD 0) "" =
          a.toolCallArguments ++ [(tc.index.getD 0, "")] :=
        setAssoc_not_mem _ _ _ hidxArgsKeys
      have hfreshId : "fc_" ++ uuid a.nextUUID ∉ a.toolCallItemIDs.map Prod.snd := by
        intro hmem
        obtain ⟨p, hp, hpe⟩ := List.mem_map.mp hmem
        obtain ⟨k, hk, hkid⟩ := h.idsBound p hp
        rw [hkid] at hpe
        exact absurd (fcId_inj hpe) (Nat.ne_of_lt hk)
      have hkeysNodup2 : ((a.toolCallItemIDs ++
          [(tc.index.getD 0, "fc_" ++ uuid a.nextUUID)]).map Prod.fst).Nodup := by
        rw [List.map_append]
        simp [List.nodup_append, h.keysNodup, hidxKeys]
      have hidsNodup2 : ((a.toolCallItemIDs ++
          [(tc.index.getD 0, "fc_" ++ uuid a.nextUUID)]).map Prod.snd).Nodup := by
        rw [List.map_append]
        simp [List.nodup_append, h.idsNodup, hfreshId]
      have hidsBound2 : ∀ p ∈ a.toolCallItemIDs ++
          [(tc.index.getD 0, "fc_" ++ uuid a.nextUUID)],
          ∃ k, k < a.nextUUID + 1 ∧ p.2 = "fc_" ++ uuid k := by
        intro p hp
        rcases List.mem_append.mp hp with hp | hp
        · obtain ⟨k, hk, hkid⟩ := h.idsBound p hp
          exact ⟨k, Nat.lt_succ_of_lt hk, hkid⟩
        · rcases List.mem_singleton.mp hp with rfl
          exact ⟨a.nextUUID, Nat.lt_succ_self _, rfl⟩
      have hconcatFresh : argsDeltaConcat es ("fc_" ++ uuid a.nextUUID) = "" := by
        refine argsDeltaConcat_eq_empty es _ ?_
        intro e he i hei heq
        obtain ⟨k, hk, hkid⟩ := h.fcIdsBound e he i hei
        rw [heq] at hkid
        exact absurd (fcId_inj hkid.symm) (Nat.ne_of_lt hk)
      by_cases hargs : tc.function.arguments = ""
      · rw [processToolCall_new_noargs a tc hl hargs]
        refine ⟨?_, ?_, ?_, ?_, ?_, ?_, ?_, ?_⟩
        · show ((setAssoc a.toolCallItemIDs _ _).map Prod.fst).Nodup
          rw [hsetIds]
          exact hkeysNodup2
        · show (setAssoc a.toolCallArguments _ _).map Prod.fst =
            (setAssoc a.toolCallItemIDs _ _).map Prod.fst
          rw [hsetIds, hsetArgs, List.map_append, List.map_append, h.argsKeys]
          rfl
        · show ∀ p ∈ setAssoc a.toolCallItemIDs _ _, _
          rw [hsetIds]
          exact hidsBound2
        · show ((setAssoc a.toolCallItemIDs _ _).map Prod.snd).Nodup
          rw [hsetIds]
          exact hidsNodup2
        · show fcAddedIds _ = (setAssoc a.toolCallItemIDs _ _).map Prod.snd
          rw [hsetIds, fcAddedIds_append, h.addedIds, List.map_append]
          rfl
        · show ∀ p ∈ setAssoc a.toolCallItemIDs _ _, _
          rw [hsetIds]
          intro p hp
          rcases List.mem_append.mp hp with hp | hp
          · have hpne : p.1 ≠ tc.index.getD 0 := by
              intro he
              exact hidxKeys (he ▸ List.mem_map_of_mem Prod.fst hp)
            show lookupAssoc (setAssoc a.toolCallArguments _ _) p.1 = _
            rw [lookupAssoc_set_ne _ _ _ hpne, argsDeltaConcat_append, h.argsAcc p hp]
            have : argsDeltaConcat [StreamEvent.outputItemAddedFunctionCall
                (a.outputIndex + 1) ("fc_" ++ uuid a.nextUUID) tc.id tc.function.name]
                p.2 = "" := rfl
            rw [this]
            simp
          · rcases List.mem_singleton.mp hp with rfl
            show lookupAssoc (setAssoc a.toolCallArguments _ _) (tc.index.getD 0) = _
            rw [lookupAssoc_set_self, argsDeltaConcat_append, hconcatFresh]
            have : argsDeltaConcat [StreamEvent.outputItemAddedFunctionCall
                (a.outputIndex + 1) ("fc_" ++ uuid a.nextUUID) tc.id tc.function.name]
                ("fc_" ++ uuid a.nextUUID) = "" := rfl
            rw [this]
            rfl
        · intro e he i hei
          rcases List.mem_append.mp he with he | he
          · obtain ⟨k, hk, hkid⟩ := h.fcIdsBound e he i hei
            exact ⟨k, Nat.lt_succ_of_lt hk, hkid⟩
          · rcases List.mem_singleton.mp he with rfl
            have hii : "fc_" ++ uuid a.nextUUID = i := by
              simpa [fcEventId] using hei
            cases hii
            exact ⟨a.nextUUID, Nat.lt_succ_self _, rfl⟩
        · show a.outputIndex + 1 = Int.ofNat (setAssoc a.toolCallItemIDs _ _).length
          rw [hsetIds, List.length_append, h.outIdx]
          simp
      · rw [processToolCall_new_args a tc hl hargs]
        refine ⟨?_, ?_, ?_, ?_, ?_, ?_, ?_, ?_⟩
        · show ((setAssoc a.toolCallItemIDs _ _).map Prod.fst).Nodup
          rw [hsetIds]
          exact hkeysNodup2
        · show (setAssoc (setAssoc a.toolCallArguments _ _) _ _).map Prod.fst =
            (setAssoc a.toolCallItemIDs _ _).map Prod.fst
          rw [setAssoc_keys_of_mem, hsetIds, hsetArgs, List.map_append, List.map_append,
            h.argsKeys]
          · rfl
          · rw [hsetArgs, List.map_append]
            simp
        · show ∀ p ∈ setAssoc a.toolCallItemIDs _ _, _
          rw [hsetIds]
          exact hidsBound2
        · show ((setAssoc a.toolCallItemIDs _ _).map Prod.snd).Nodup
          rw [hsetIds]
          exact hidsNodup2
        · show fcAddedIds _ = (setAssoc a.toolCallItemIDs _ _).map Prod.snd
          rw [hsetIds, fcAddedIds_append, h.addedIds, List.map_append]
          rfl
        · show ∀ p ∈ setAssoc a.toolCallItemIDs _ _, _
          rw [hsetIds]
          intro p hp
          rcases List.mem_append.mp hp with hp | hp
          · have hpne : p.1 ≠ tc.index.getD 0 := by
              intro he
              exact hidxKeys (he ▸ List.mem_map_of_mem Prod.fst hp)
            have hpid : p.2 ≠ "fc_" ++ uuid a.nextUUID := by
              intro he
              exact hfreshId (he ▸ List.mem_map_of_mem Prod.snd hp)
            show lookupAssoc (setAssoc (setAssoc a.toolCallArguments _ _) _ _) p.1 = _
            rw [lookupAssoc_set_ne _ _ _ hpne, lookupAssoc_set_ne _ _ _ hpne,
              argsDeltaConcat_append, h.argsAcc p hp]
            have h1 : argsDeltaConcat [StreamEvent.outputItemAddedFunctionCall
                (a.outputIndex + 1) ("fc_" ++ uuid a.nextUUID) tc.id tc.function.name,
                StreamEvent.functionCallArgumentsDelta ("fc_" ++ uuid a.nextUUID)
                  (if a.hasTextContent then tc.index.getD 0 + 1 else tc.index.getD 0)
                  tc.function.arguments] p.2 = "" := by
              simp [argsDeltaConcat, concatStrs, Ne.symm hpid]
            rw [h1]
            simp
          · rcases List.mem_singleton.mp hp with rfl
            show lookupAssoc (setAssoc (setAssoc a.toolCallArguments _ _) _ _)
                (tc.index.getD 0) = _
            rw [lookupAssoc_set_self, argsDeltaConcat_append, hconcatFresh]
            have h1 : argsDeltaConcat [StreamEvent.outputItemAddedFunctionCall
                (a.outputIndex + 1) ("fc_" ++ uuid a.nextUUID) tc.id tc.function.name,
                StreamEvent.functionCallArgumentsDelta ("fc_" ++ uuid a.nextUUID)
                  (if a.hasTextContent then tc.index.getD 0 + 1 else tc.index.getD 0)
                  tc.function.arguments] ("fc_" ++ uuid a.nextUUID) =
                tc.function.arguments ++ "" := by
              simp [argsDeltaConcat, concatStrs]
            rw [h1]
            simp
        · intro e he i hei
          rcases List.mem_append.mp he with he | he
          · obtain ⟨k, hk, hkid⟩ := h.fcIdsBound e he i hei
            exact ⟨k, Nat.lt_succ_of_lt hk, hkid⟩
          · rcases List.mem_cons.mp he with rfl | he2
            · have hii : "fc_" ++ uuid a.nextUUID = i := by
                simpa [fcEventId] using hei
              cases hii
              exact ⟨a.nextUUID, Nat.lt_succ_self _, rfl⟩
            · rcases List.mem_singleton.mp he2 with rfl
              have hii : "fc_" ++ uuid a.nextUUID = i := by
                simpa [fcEventId] using hei
              cases hii
              exact ⟨a.nextUUID, Nat.lt_succ_self _, rfl⟩
        · show a.outputIndex + 1 = Int.ofNat (setAssoc a.toolCallItemIDs _ _).length
          rw [hsetIds, List.length_append, h.outIdx]
          simp

/-! ## Invariant preservation through a chunk -/

theorem FcInv_state_frame {a : ChatToResponsesStreamAdapter} {es : List StreamEvent}
    (h : FcInv a es) (a' : ChatToResponsesStreamAdapter)
    (h1 : a'.toolCallItemIDs = a.toolCallItemIDs)
    (h2 : a'.toolCallArguments = a.toolCallArguments)
    (h3 : a.nextUUID ≤ a'.nextUUID)
    (h4 : a'.outputIndex = a.outputIndex) : FcInv a' es := by
  refine ⟨?_, ?_, ?_, ?_, ?_, ?_, ?_, ?_⟩
  · rw [h1]; exact h.keysNodup
  · rw [h1, h2]; exact h.argsKeys
  · rw [h1]
    intro p hp
    obtain ⟨k, hk, hkid⟩ := h.idsBound p hp
    exact ⟨k, Nat.lt_of_lt_of_le hk h3, hkid⟩
  · rw [h1]; exact h.idsNodup
  · rw [h1]; exact h.addedIds
  · rw [h1, h2]; exact h.argsAcc
  · intro e he i hei
    obtain ⟨k, hk, hkid⟩ := h.fcIdsBound e he i hei
    exact ⟨k, Nat.lt_of_lt_of_le hk h3, hkid⟩
  · rw [h1, h4]; exact h.outIdx

theorem argsDeltaConcat_no_delta (es : List StreamEvent) (id : String)
    (h : ∀ e ∈ es, ∀ i oi d, e ≠ StreamEvent.functionCallArgumentsDelta i oi d) :
    argsDeltaConcat es id = "" := by
  have h1 : (es.filterMap (fun e => match e with
      | .functionCallArgumentsDelta i _ d => if i == id then some d else none
      | _ => none)) = [] := by
    rw [List.filterMap_eq_nil_iff]
    intro e he
    cases e with
    | functionCallArgumentsDelta i oi d => exact absurd rfl (h _ he i oi d)
    | _ => rfl
  rw [argsDeltaConcat, h1]
  rfl

theorem FcInv_append_nonFc {a : ChatToResponsesStreamAdapter} {es : List StreamEvent}
    (h : FcInv a es) (es' : List StreamEvent)
    (hn : ∀ e ∈ es', fcEventId e = none) : FcInv a (es ++ es') := by
  have hadd : fcAddedIds es' = [] := by
    rw [fcAddedIds, List.filterMap_eq_nil_iff]
    intro e he
    have := hn e he
    cases e <;> simp_all [fcEventId]
  have hdelta : ∀ id, argsDeltaConcat es' id = "" := by
    intro id
    refine argsDeltaConcat_no_delta es' id ?_
    intro e he i oi d heq
    have := hn e he
    rw [heq] at this
    exact Option.noConfusion this
  refine ⟨h.keysNodup, h.argsKeys, h.idsBound, h.idsNodup, ?_, ?_, ?_, h.outIdx⟩
  · rw [fcAddedIds_append, hadd, List.append_nil]
    exact h.addedIds
  · intro p hp
    rw [argsDeltaConcat_append, hdelta, String.append_empty]
    exact h.argsAcc p hp
  · intro e he i hei
    rcases List.mem_append.mp he with he | he
    · exact h.fcIdsBound e he i hei
    · have := hn e he
      rw [hei] at this
      exact Option.noConfusion this

theorem FcInv_processToolCalls (tcs : List ToolCallDelta) :
    ∀ (a : ChatToResponsesStreamAdapter) (es : List StreamEvent), FcInv a es →
      FcInv (processToolCalls a tcs).1 (es ++ (processToolCalls a tcs).2) := by
  induction tcs with
  | nil =>
      intro a es h
      simpa [processToolCalls] using h
  | cons tc rest ih =>
      intro a es h
      have h1 := FcInv_processToolCall a tc es h
      have h2 := ih (processToolCall a tc).1 _ h1
      simpa [processToolCalls, List.append_assoc] using h2

theorem mem_createFinishEvents {a : ChatToResponsesStreamAdapter} {usage : Option Usage}
    {fr : String} {e : StreamEvent} (he : e ∈ createFinishEvents a usage fr) :
    (∃ p ∈ a.toolCallItemIDs, e = createFunctionCallArgumentsDoneEvent a p.1 ∨
      e = createFunctionCallDoneEvent a p.1) ∨
    e = createTextDoneEvent a ∨ e = createContentPartDoneEvent a ∨
    e = createOutputItemDoneEvent a ∨ e = createResponseCompletedEvent a usage fr := by
  unfold createFinishEvents at he
  rcases List.mem_append.mp he with he | he
  · rcases List.mem_append.mp he with he | he
    · right
      by_cases ht : a.hasTextContent <;> simp [ht] at he
      rcases he with rfl | rfl | rfl
      · exact Or.inl rfl
      · exact Or.inr (Or.inl rfl)
      · exact Or.inr (Or.inr (Or.inl rfl))
    · left
      obtain ⟨l, hl, hel⟩ := List.mem_flatten.mp he
      obtain ⟨p, hp, rfl⟩ := List.mem_map.mp hl
      rcases List.mem_cons.mp hel with rfl | hel2
      · exact ⟨p, hp, Or.inl rfl⟩
      · rcases List.mem_singleton.mp hel2 with rfl
        exact ⟨p, hp, Or.inr rfl⟩
  · rcases List.mem_singleton.mp he with rfl
    right
    exact Or.inr (Or.inr (Or.inr rfl))

theorem FcInv_append_finish {a : ChatToResponsesStreamAdapter} {es : List StreamEvent}
    (h : FcInv a es) (usage : Option Usage) (fr : String) :
    FcInv a (es ++ createFinishEvents a usage fr) := by
  have hnoadd : fcAddedIds (createFinishEvents a usage fr) = [] := by
    rw [fcAddedIds, List.filterMap_eq_nil_iff]
    intro e he
    rcases mem_createFinishEvents he with ⟨p, hp, heq | heq⟩ | rfl | rfl | rfl | rfl
    · rw [heq]; rfl
    · rw [heq]; rfl
    all_goals rfl
  have hnodelta : ∀ id, argsDeltaConcat (createFinishEvents a usage fr) id = "" := by
    intro id
    refine argsDeltaConcat_no_delta _ id ?_
    intro e he i oi d heq
    rcases mem_createFinishEvents he with ⟨p, hp, heq2 | heq2⟩ | rfl | rfl | rfl | rfl
    · rw [heq] at heq2; exact StreamEvent.noConfusion heq2
    · rw [heq] at heq2; exact StreamEvent.noConfusion heq2
    all_goals exact StreamEvent.noConfusion heq
  refine ⟨h.keysNodup, h.argsKeys, h.idsBound, h.idsNodup, ?_, ?_, ?_, h.outIdx⟩
  · rw [fcAddedIds_append, hnoadd, List.append_nil]
    exact h.addedIds
  · intro p hp
    rw [argsDeltaConcat_append, hnodelta, String.append_empty]
    exact h.argsAcc p hp
  · intro e he i hei
    rcases List.mem_append.mp he with he | he
    · exact h.fcIdsBound e he i hei
    · rcases mem_createFinishEvents he with ⟨p, hp, heq | heq⟩ | rfl | rfl | rfl | rfl
      · have hl : lookupAssoc a.toolCallItemIDs p.1 = some p.2 := by
          cases p with
          | mk pk pv => exact lookupAssoc_of_mem h.keysNodup hp
        have hpid : i = p.2 := by
          rw [heq] at hei
          simp [createFunctionCallArgumentsDoneEvent, fcEventId, hl] at hei
          exact hei.symm
        obtain ⟨k, hk, hkid⟩ := h.idsBound p hp
        exact ⟨k, hk, hpid ▸ hkid⟩
      · have hl : lookupAssoc a.toolCallItemIDs p.1 = some p.2 := by
          cases p with
          | mk pk pv => exact lookupAssoc_of_mem h.keysNodup hp
        have hpid : i = p.2 := by
          rw [heq] at hei
          simp [createFunctionCallDoneEvent, fcEventId, hl] at hei
          exact hei.symm
        obtain ⟨k, hk, hkid⟩ := h.idsBound p hp
        exact ⟨k, hk, hpid ▸ hkid⟩
      all_goals exact Option.noConfusion hei

theorem processRole_state (a : ChatToResponsesStreamAdapter) (delta : ChatDelta) :
    (processRole a delta).1 = a := by
  unfold processRole
  split <;> rfl

theorem processText_fields (a : ChatToResponsesStreamAdapter) (delta : ChatDelta) :
    (processText a delta).1.toolCallItemIDs = a.toolCallItemIDs ∧
    (processText a delta).1.toolCallArguments = a.toolCallArguments ∧
    (processText a delta).1.nextUUID = a.nextUUID ∧
    (processText a delta).1.outputIndex = a.outputIndex ∧
    (processText a delta).1.hasTextContent = (a.hasTextContent || contentDeltaB delta) := by
  unfold processText contentDeltaB
  cases hc : delta.content with
  | none => simp
  | some c => by_cases h : c = "" <;> simp [h]

theorem FcInv_processRole {a : ChatToResponsesStreamAdapter} {es : List StreamEvent}
    (h : FcInv a es) (delta : ChatDelta) :
    FcInv (processRole a delta).1 (es ++ (processRole a delta).2) := by
  rw [processRole_state]
  refine FcInv_append_nonFc h _ ?_
  intro e he
  unfold processRole at he
  split at he
  · rcases List.mem_cons.mp he with rfl | he2
    · rfl
    · rcases List.mem_singleton.mp he2 with rfl
      rfl
  · simp at he

theorem FcInv_processText {a : ChatToResponsesStreamAdapter} {es : List StreamEvent}
    (h : FcInv a es) (delta : ChatDelta) :
    FcInv (processText a delta).1 (es ++ (processText a delta).2) := by
  obtain ⟨h1, h2, h3, h4, _⟩ := processText_fields a delta
  refine FcInv_state_frame (FcInv_append_nonFc h _ ?_) _ h1 h2 (le_of_eq h3.symm) h4
  intro e he
  unfold processText at he
  cases hc : delta.content with
  | none => rw [hc] at he; simp at he
  | some c =>
      rw [hc] at he
      by_cases hce : c = ""
      · simp [hce] at he
      · simp [hce] at he
        rw [he]
        rfl

theorem FcInv_processToolCallsGuard {a : ChatToResponsesStreamAdapter} {es : List StreamEvent}
    (h : FcInv a es) (delta : ChatDelta) :
    FcInv (processToolCallsGuard a delta).1 (es ++ (processToolCallsGuard a delta).2) := by
  unfold processToolCallsGuard
  split
  · exact FcInv_processToolCalls delta.toolCalls a es h
  · simpa using h

theorem FcInv_processFinish {a : ChatToResponsesStreamAdapter} {es : List StreamEvent}
    (h : FcInv a es) (choice : ChatStreamChoice) (usage : Option Usage) :
    FcInv a (es ++ processFinish a choice usage) := by
  unfold processFinish
  cases choice.finishReason with
  | none => simpa using h
  | some fr =>
      by_cases hfr : fr = ""
      · simp only [hfr]
        simpa using h
      · simp only [hfr]
        rw [if_pos hfr]
        exact FcInv_append_finish h usage fr

theorem FcInv_processChoice {a : ChatToResponsesStreamAdapter} {es : List StreamEvent}
    (h : FcInv a es) (choice : ChatStreamChoice) (usage : Option Usage) :
    FcInv (processChoice a choice usage).1 (es ++ (processChoice a choice usage).2) := by
  have h1 := FcInv_processRole h choice.delta
  have h2 := FcInv_processText h1 choice.delta
  have h3 := FcInv_processToolCallsGuard h2 choice.delta
  have h4 := FcInv_processFinish h3 choice usage
  simpa [processChoice, List.append_assoc] using h4

theorem FcInv_mono_nonFc {a a' : ChatToResponsesStreamAdapter} {es : List StreamEvent}
    (h : FcInv a es) (es' : List StreamEvent)
    (h1 : a'.toolCallItemIDs = a.toolCallItemIDs)
    (h2 : a'.toolCallArguments = a.toolCallArguments)
    (h3 : a.nextUUID ≤ a'.nextUUID)
    (h4 : a'.outputIndex = a.outputIndex)
    (hn : ∀ e ∈ es', fcEventId e = none) : FcInv a' (es ++ es') :=
  FcInv_state_frame (FcInv_append_nonFc h es' hn) a' h1 h2 h3 h4

theorem initEvents_nonFc (a : ChatToResponsesStreamAdapter) :
    ∀ e ∈ [createResponseCreatedEvent a, createResponseInProgressEvent a],
      fcEventId e = none := by
  intro e he
  rcases List.mem_cons.mp he with rfl | he2
  · rfl
  · rcases List.mem_singleton.mp he2 with rfl
    rfl

theorem FcInv_convertChunk {a : ChatToResponsesStreamAdapter} {es : List StreamEvent}
    (h : FcInv a es) (c : ChatCompletionsStreamResponse) :
    FcInv (ConvertChunk a (some c)).1 (es ++ (ConvertChunk a (some c)).2) := by
  have h1 : FcInv (if c.model ≠ "" then { a with model := c.model } else a) es := by
    split
    · exact FcInv_state_frame h _ rfl rfl (le_refl _) rfl
    · exact h
  generalize hA1 : (if c.model ≠ "" then { a with model := c.model } else a) = a1 at h1
  have h2main : FcInv (if a1.initialized = false then
        ({ a1 with initialized := true },
         [createResponseCreatedEvent { a1 with initialized := true },
          createResponseInProgressEvent { a1 with initialized := true }])
      else (a1, ([] : List StreamEvent))).1
      (es ++ (if a1.initialized = false then
        ({ a1 with initialized := true },
         [createResponseCreatedEvent { a1 with initialized := true },
          createResponseInProgressEvent { a1 with initialized := true }])
      else (a1, ([] : List StreamEvent))).2) := by
    split
    · exact FcInv_mono_nonFc h1 _ rfl rfl (le_refl _) rfl (initEvents_nonFc _)
    · simpa using h1
  simp only [ConvertChunk]
  rw [hA1]
  cases hc : c.choices with
  | nil =>
      simp only []
      exact h2main
  | cons choice rest =>
      simp only []
      have h3 := FcInv_processChoice h2main choice c.usage
      simpa [List.append_assoc] using h3

theorem FcInv_new (t : Int) : FcInv (NewChatToResponsesStreamAdapter t) [] := by
  refine ⟨?_, ?_, ?_, ?_, ?_, ?_, ?_, ?_⟩ <;>
    simp [NewChatToResponsesStreamAdapter, fcAddedIds]

theorem FcInv_runStream (cs : List ChatCompletionsStreamResponse) :
    ∀ (a : ChatToResponsesStreamAdapter) (es : List StreamEvent), FcInv a es →
      FcInv (runStream a cs).1 (es ++ (runStream a cs).2) := by
  induction cs with
  | nil =>
      intro a es h
      simpa [runStream] using h
  | cons c rest ih =>
      intro a es h
      have h1 := FcInv_convertChunk h c
      have h2 := ih _ _ h1
      simpa [runStream, List.append_assoc] using h2

/-! ## Text content tracking -/

theorem processToolCall_hasText (a : ChatToResponsesStreamAdapter) (tc : ToolCallDelta) :
    (processToolCall a tc).1.hasTextContent = a.hasTextContent := by
  cases hl : lookupAssoc a.toolCallItemIDs (tc.index.getD 0) with
  | some itemID =>
      by_cases hargs : tc.function.arguments = ""
      · simp [processToolCall_old_noargs a tc hl hargs]
      · simp [processToolCall_old_args a tc hl hargs]
  | none =>
      by_cases hargs : tc.function.arguments = ""
      · simp [processToolCall_new_noargs a tc hl hargs]
      · simp [processToolCall_new_args a tc hl hargs]

theorem processToolCalls_hasText (tcs : List ToolCallDelta) :
    ∀ a : ChatToResponsesStreamAdapter,
      (processToolCalls a tcs).1.hasTextContent = a.hasTextContent := by
  induction tcs with
  | nil => intro a; rfl
  | cons tc rest ih =>
      intro a
      simp [processToolCalls, ih, processToolCall_hasText]

theorem processToolCallsGuard_hasText (a : ChatToResponsesStreamAdapter)
    (delta : ChatDelta) :
    (processToolCallsGuard a delta).1.hasTextContent = a.hasTextContent := by
  unfold processToolCallsGuard
  split
  · exact processToolCalls_hasText delta.toolCalls a
  · rfl

theorem processChoice_hasText (a : ChatToResponsesStreamAdapter)
    (choice : ChatStreamChoice) (usage : Option Usage) :
    (processChoice a choice usage).1.hasTextContent =
      (a.hasTextContent || contentDeltaB choice.delta) := by
  unfold processChoice
  rw [processToolCallsGuard_hasText, (processText_fields _ _).2.2.2.2,
    processRole_state]

theorem ConvertChunk_hasText (a : ChatToResponsesStreamAdapter)
    (c : ChatCompletionsStreamResponse) :
    (ConvertChunk a (some c)).1.hasTextContent = (a.hasTextContent || contentB c) := by
  cases c with
  | mk model choices usage =>
      cases choices with
      | nil =>
          simp only [ConvertChunk, contentB]
          split <;> split <;> simp
      | cons choice rest =>
          simp only [ConvertChunk]
          split <;> split <;>
            simp [processChoice_hasText, contentB, contentDeltaB]

theorem runStream_hasText (cs : List ChatCompletionsStreamResponse) :
    ∀ a : ChatToResponsesStreamAdapter,
      (runStream a cs).1.hasTextContent = (a.hasTextContent || someContentB cs) := by
  induction cs with
  | nil => intro a; simp [runStream, someContentB]
  | cons c rest ih =>
      intro a
      simp [runStream, ih, ConvertChunk_hasText, someContentB, Bool.or_assoc]

/-! ## Stream decomposition at the finishing chunk -/

theorem hasFinishB_stripFinish (c : ChatCompletionsStreamResponse) :
    hasFinishB (stripFinish c) = false := by
  unfold hasFinishB stripFinish choiceFinishB
  cases c.choices <;> simp

theorem roleOf_stripFinish (c : ChatCompletionsStreamResponse) :
    roleOf (stripFinish c) = roleOf c := by
  unfold roleOf stripFinish
  cases c.choices <;> simp

theorem contentB_stripFinish (c : ChatCompletionsStreamResponse) :
    contentB (stripFinish c) = contentB c := by
  unfold contentB stripFinish
  cases c.choices <;> simp

theorem toolCallsOf_stripFinish (c : ChatCompletionsStreamResponse) :
    toolCallsOf (stripFinish c) = toolCallsOf c := by
  unfold toolCallsOf stripFinish
  cases c.choices <;> simp

theorem ConvertChunk_finish_decomp (a : ChatToResponsesStreamAdapter)
    (c : ChatCompletionsStreamResponse) (hf : hasFinishB c = true) :
    ConvertChunk a (some c) =
      ((ConvertChunk a (some (stripFinish c))).1,
       (ConvertChunk a (some (stripFinish c))).2 ++
         createFinishEvents (ConvertChunk a (some (stripFinish c))).1 c.usage
           (finishReasonOf c)) := by
  cases c with
  | mk model choices usage =>
      cases choices with
      | nil => simp [hasFinishB] at hf
      | cons ch rest =>
          cases ch with
          | mk delta finO =>
              cases finO with
              | none => simp [hasFinishB, choiceFinishB] at hf
              | some fr =>
                  have hfr : fr ≠ "" := by
                    simpa [hasFinishB, choiceFinishB] using hf
                  simp [ConvertChunk, stripFinish, finishReasonOf, processChoice,
                    processFinish, hfr, List.append_assoc]

theorem runStream_append (l1 l2 : List ChatCompletionsStreamResponse) :
    ∀ a : ChatToResponsesStreamAdapter,
      runStream a (l1 ++ l2) =
        ((runStream (runStream a l1).1 l2).1,
         (runStream a l1).2 ++ (runStream (runStream a l1).1 l2).2) := by
  induction l1 with
  | nil => intro a; simp [runStream]
  | cons c rest ih =>
      intro a
      simp [runStream, ih, List.append_assoc]

theorem runStream_lastFinish (a : ChatToResponsesStreamAdapter)
    (body : List ChatCompletionsStreamResponse) (lastc : ChatCompletionsStreamResponse)
    (hf : hasFinishB lastc = true) :
    runStream a (body ++ [lastc]) =
      ((runStream a (body ++ [stripFinish lastc])).1,
       (runStream a (body ++ [stripFinish lastc])).2 ++
         createFinishEvents (runStream a (body ++ [stripFinish lastc])).1 lastc.usage
           (finishReasonOf lastc)) := by
  rw [runStream_append body [lastc], runStream_append body [stripFinish lastc]]
  simp [runStream, ConvertChunk_finish_decomp _ lastc hf, List.append_assoc]

/-! ## Event classification and counting -/

theorem mem_processRole {a : ChatToResponsesStreamAdapter} {delta : ChatDelta}
    {e : StreamEvent} (he : e ∈ (processRole a delta).2) :
    e = createOutputItemAddedEvent a ∨ e = createContentPartAddedEvent a := by
  unfold processRole at he
  split at he
  · rcases List.mem_cons.mp he with rfl | he2
    · exact Or.inl rfl
    · rcases List.mem_singleton.mp he2 with rfl
      exact Or.inr rfl
  · simp at he

theorem mem_processText {a : ChatToResponsesStreamAdapter} {delta : ChatDelta}
    {e : StreamEvent} (he : e ∈ (processText a delta).2) :
    ∃ c, e = createTextDeltaEvent { a with hasTextContent := true } c := by
  unfold processText at he
  cases hc : delta.content with
  | none => rw [hc] at he; simp at he
  | some c =>
      rw [hc] at he
      by_cases hce : c = ""
      · simp [hce] at he
      · simp [hce] at he
        exact ⟨c, he⟩

theorem mem_processToolCall {a : ChatToResponsesStreamAdapter} {tc : ToolCallDelta}
    {e : StreamEvent} (he : e ∈ (processToolCall a tc).2) :
    (∃ oi i cid n, e = StreamEvent.outputItemAddedFunctionCall oi i cid n) ∨
    (∃ i oi d, e = StreamEvent.functionCallArgumentsDelta i oi d) := by
  cases hl : lookupAssoc a.toolCallItemIDs (tc.index.getD 0) with
  | some itemID =>
      by_cases hargs : tc.function.arguments = ""
      · rw [processToolCall_old_noargs a tc hl hargs] at he
        simp at he
      · rw [processToolCall_old_args a tc hl hargs] at he
        rcases List.mem_singleton.mp he with rfl
        exact Or.inr ⟨_, _, _, rfl⟩
  | none =>
      by_cases hargs : tc.function.arguments = ""
      · rw [processToolCall_new_noargs a tc hl hargs] at he
        rcases List.mem_singleton.mp he with rfl
        exact Or.inl ⟨_, _, _, _, rfl⟩
      · rw [processToolCall_new_args a tc hl hargs] at he
        rcases List.mem_cons.mp he with rfl | he2
        · exact Or.inl ⟨_, _, _, _, rfl⟩
        · rcases List.mem_singleton.mp he2 with rfl
          exact Or.inr ⟨_, _, _, rfl⟩

theorem mem_processToolCalls (tcs : List ToolCallDelta) :
    ∀ (a : ChatToResponsesStreamAdapter) (e : StreamEvent),
      e ∈ (processToolCalls a tcs).2 →
      (∃ oi i cid n, e = StreamEvent.outputItemAddedFunctionCall oi i cid n) ∨
      (∃ i oi d, e = StreamEvent.functionCallArgumentsDelta i oi d) := by
  induction tcs with
  | nil =>
      intro a e he
      simp [processToolCalls] at he
  | cons tc rest ih =>
      intro a e he
      simp only [processToolCalls] at he
      rcases List.mem_append.mp he with he | he
      · exact mem_processToolCall he
      · exact ih _ e he

theorem mem_processToolCallsGuard {a : ChatToResponsesStreamAdapter} {delta : ChatDelta}
    {e : StreamEvent} (he : e ∈ (processToolCallsGuard a delta).2) :
    (∃ oi i cid n, e = StreamEvent.outputItemAddedFunctionCall oi i cid n) ∨
    (∃ i oi d, e = StreamEvent.functionCallArgumentsDelta i oi d) := by
  unfold processToolCallsGuard at he
  split at he
  · exact mem_processToolCalls delta.toolCalls a e he
  · simp at he

theorem processFinish_nil {a : ChatToResponsesStreamAdapter} {choice : ChatStreamChoice}
    {usage : Option Usage} (hf : choiceFinishB choice = false) :
    processFinish a choice usage = [] := by
  unfold processFinish
  unfold choiceFinishB at hf
  cases hco : choice.finishReason with
  | none => rfl
  | some fr =>
      rw [hco] at hf
      simp at hf
      simp [hf]

theorem processFinish_eq {a : ChatToResponsesStreamAdapter} {choice : ChatStreamChoice}
    {usage : Option Usage} (hf : choiceFinishB choice = true) :
    processFinish a choice usage =
      createFinishEvents a usage (choice.finishReason.getD "") := by
  unfold processFinish
  unfold choiceFinishB at hf
  cases hco : choice.finishReason with
  | none => rw [hco] at hf; exact Bool.noConfusion hf
  | some fr =>
      rw [hco] at hf
      simp at hf
      simp [hf]

theorem countP_zero_of_false {es : List StreamEvent} {p : StreamEvent → Bool}
    (h : ∀ e ∈ es, p e = false) : es.countP p = 0 := by
  rw [List.countP_eq_zero]
  intro e he
  simp [h e he]

theorem countP_isFcAdded (es : List StreamEvent) (id : String) :
    es.countP (isFcAdded id) = (fcAddedIds es).count id := by
  induction es with
  | nil => rfl
  | cons e rest ih =>
      cases e <;>
        simp [fcAddedIds, isFcAdded, List.countP_cons, List.count_cons, ih,
          List.filterMap_cons]

theorem countP_flatten_map {α : Type} (l : List α) (g : α → List StreamEvent)
    (p : StreamEvent → Bool) (f : α → Nat) (h : ∀ x ∈ l, (g x).countP p = f x) :
    ((l.map g).flatten).countP p = (l.map f).sum := by
  induction l with
  | nil => rfl
  | cons x rest ih =>
      simp only [List.map_cons, List.flatten_cons, List.countP_append, List.sum_cons]
      rw [h x (List.mem_cons_self _ _), ih (fun y hy => h y (List.mem_cons_of_mem _ hy))]

theorem sum_ite_eq_count (m : List (Int × String)) (id : String) :
    (m.map (fun p => if p.2 = id then 1 else 0)).sum = (m.map Prod.snd).count id := by
  induction m with
  | nil => rfl
  | cons p rest ih =>
      simp only [List.map_cons, List.sum_cons, List.count_cons, ih]
      by_cases hp : p.2 = id <;> simp [hp]
      omega


theorem pairing_take (A B : List StreamEvent) (p q : StreamEvent → Bool)
    (hA : A.countP p = 0) (hle : B.countP p ≤ A.countP q)
    (n : Nat) :
    ((A ++ B).take n).countP p ≤ ((A ++ B).take n).countP q := by
  rw [List.take_append_eq_append_take, List.countP_append, List.countP_append]
  by_cases hn : n ≤ A.length
  · rw [Nat.sub_eq_zero_of_le hn]
    simp only [List.take_zero, List.countP_nil, Nat.add_zero]
    have h1 : (A.take n).countP p ≤ A.countP p := (List.take_sublist n A).countP_le p
    omega
  · have hA2 : A.take n = A := List.take_of_length_le (by omega)
    rw [hA2]
    have h1 : (B.take (n - A.length)).countP p ≤ B.countP p :=
      (List.take_sublist _ B).countP_le p
    omega

theorem countP_processRole_added (a : ChatToResponsesStreamAdapter) (delta : ChatDelta) :
    (processRole a delta).2.countP isMsgItemAdded =
      (if delta.role = "assistant" ∧ a.hasTextContent = false then 1 else 0) ∧
    (processRole a delta).2.countP isCpAdded =
      (if delta.role = "assistant" ∧ a.hasTextContent = false then 1 else 0) := by
  unfold processRole
  split <;> rename_i h <;>
    simp [h, isMsgItemAdded, isCpAdded, createOutputItemAddedEvent,
      createContentPartAddedEvent]

theorem countP_processText_added (a : ChatToResponsesStreamAdapter) (delta : ChatDelta) :
    (processText a delta).2.countP isMsgItemAdded = 0 ∧
    (processText a delta).2.countP isCpAdded = 0 := by
  constructor <;>
    refine countP_zero_of_false ?_ <;>
    intro e he <;>
    obtain ⟨c, rfl⟩ := mem_processText he <;>
    rfl

theorem countP_processToolCallsGuard_added (a : ChatToResponsesStreamAdapter)
    (delta : ChatDelta) :
    (processToolCallsGuard a delta).2.countP isMsgItemAdded = 0 ∧
    (processToolCallsGuard a delta).2.countP isCpAdded = 0 := by
  constructor <;>
    refine countP_zero_of_false ?_ <;>
    intro e he <;>
    rcases mem_processToolCallsGuard he with ⟨oi, i, cid, n, rfl⟩ | ⟨i, oi, d, rfl⟩ <;>
    rfl

theorem countP_createFinishEvents_added (a : ChatToResponsesStreamAdapter)
    (usage : Option Usage) (fr : String) :
    (createFinishEvents a usage fr).countP isMsgItemAdded = 0 ∧
    (createFinishEvents a usage fr).countP isCpAdded = 0 := by
  constructor <;>
    refine countP_zero_of_false ?_ <;>
    intro e he <;>
    rcases mem_createFinishEvents he with ⟨p, hp, rfl | rfl⟩ | rfl | rfl | rfl | rfl <;>
    rfl

theorem countP_processFinish_added (a : ChatToResponsesStreamAdapter)
    (choice : ChatStreamChoice) (usage : Option Usage) :
    (processFinish a choice usage).countP isMsgItemAdded = 0 ∧
    (processFinish a choice usage).countP isCpAdded = 0 := by
  by_cases hf : choiceFinishB choice = true
  · rw [processFinish_eq hf]
    exact countP_createFinishEvents_added a usage _
  · rw [processFinish_nil (Bool.not_eq_true _ ▸ hf)]
    exact ⟨rfl, rfl⟩

theorem processChoice_countAdded (a : ChatToResponsesStreamAdapter)
    (choice : ChatStreamChoice) (usage : Option Usage) :
    (processChoice a choice usage).2.countP isMsgItemAdded =
      (if choice.delta.role = "assistant" ∧ a.hasTextContent = false then 1 else 0) ∧
    (processChoice a choice usage).2.countP isCpAdded =
      (if choice.delta.role = "assistant" ∧ a.hasTextContent = false then 1 else 0) := by
  unfold processChoice
  simp only [List.countP_append]
  rw [(countP_processRole_added a choice.delta).1,
    (countP_processRole_added a choice.delta).2,
    (countP_processText_added _ choice.delta).1,
    (countP_processText_added _ choice.delta).2,
    (countP_processToolCallsGuard_added _ choice.delta).1,
    (countP_processToolCallsGuard_added _ choice.delta).2,
    (countP_processFinish_added _ choice usage).1,
    (countP_processFinish_added _ choice usage).2]
  omega

theorem countP_init_added (a : ChatToResponsesStreamAdapter) :
    ([createResponseCreatedEvent a, createResponseInProgressEvent a].countP isMsgItemAdded
      = 0) ∧
    ([createResponseCreatedEvent a, createResponseInProgressEvent a].countP isCpAdded
      = 0) :=
  ⟨rfl, rfl⟩

theorem ConvertChunk_countAdded (a : ChatToResponsesStreamAdapter)
    (c : ChatCompletionsStreamResponse) :
    ((ConvertChunk a (some c)).2.countP isMsgItemAdded =
      if roleOf c = "assistant" ∧ a.hasTextContent = false then 1 else 0) ∧
    ((ConvertChunk a (some c)).2.countP isCpAdded =
      if roleOf c = "assistant" ∧ a.hasTextContent = false then 1 else 0) := by
  cases c with
  | mk model choices usage =>
      cases choices with
      | nil =>
          simp only [ConvertChunk, roleOf]
          split <;> split <;>
            simp [isMsgItemAdded, isCpAdded, createResponseCreatedEvent,
              createResponseInProgressEvent]
      | cons choice rest =>
          simp only [ConvertChunk, roleOf]
          split <;> split <;>
            simp [List.countP_append, (processChoice_countAdded _ choice usage).1,
              (processChoice_countAdded _ choice usage).2, isMsgItemAdded, isCpAdded,
              createResponseCreatedEvent, createResponseInProgressEvent]

theorem ConvertChunk_noDones (a : ChatToResponsesStreamAdapter)
    (c : ChatCompletionsStreamResponse) (hf : hasFinishB c = false) :
    ∀ e ∈ (ConvertChunk a (some c)).2, isDoneEvent e = false := by
  cases c with
  | mk model choices usage =>
      cases choices with
      | nil =>
          intro e he
          simp only [ConvertChunk] at he
          split at he <;> split at he <;> simp at he <;>
            rcases he with rfl | rfl <;> rfl
      | cons choice rest =>
          have hcf : choiceFinishB choice = false := by
            simpa [hasFinishB] using hf
          intro e he
          simp only [ConvertChunk] at he
          have hchoice : ∀ a2 : ChatToResponsesStreamAdapter,
              e ∈ (processChoice a2 choice usage).2 → isDoneEvent e = false := by
            intro a2 he2
            simp only [processChoice, processFinish_nil hcf, List.append_nil] at he2
            rcases List.mem_append.mp he2 with he3 | he3
            · rcases List.mem_append.mp he3 with he4 | he4
              · rcases mem_processRole he4 with rfl | rfl <;> rfl
              · obtain ⟨cc, rfl⟩ := mem_processText he4
                rfl
            · rcases mem_processToolCallsGuard he3 with ⟨oi, i, cid, n, rfl⟩ | ⟨i, oi, d, rfl⟩ <;>
                rfl
          split at he <;> split at he <;>
            first
            | exact hchoice _ he
            | (rcases List.mem_append.mp he with he5 | he5
               · (simp at he5
                  rcases he5 with rfl | rfl <;> rfl)
               · exact hchoice _ he5)

theorem runStream_noRole_added (cs : List ChatCompletionsStreamResponse) :
    ∀ a : ChatToResponsesStreamAdapter, (∀ c ∈ cs, roleOf c ≠ "assistant") →
      (runStream a cs).2.countP isMsgItemAdded = 0 ∧
      (runStream a cs).2.countP isCpAdded = 0 := by
  induction cs with
  | nil => intro a _; exact ⟨rfl, rfl⟩
  | cons c rest ih =>
      intro a hr
      have h1 := ConvertChunk_countAdded a c
      have hrc : ¬(roleOf c = "assistant" ∧ a.hasTextContent = false) := by
        intro hcond
        exact hr c (List.mem_cons_self _ _) hcond.1
      have h2 := ih (ConvertChunk a (some c)).1
        (fun c2 hc2 => hr c2 (List.mem_cons_of_mem _ hc2))
      simp only [runStream, List.countP_append]
      rw [h1.1, h1.2, if_neg hrc]
      exact ⟨by rw [h2.1], by rw [h2.2]⟩

theorem runStream_noFinish_noDones (cs : List ChatCompletionsStreamResponse) :
    ∀ a : ChatToResponsesStreamAdapter, (∀ c ∈ cs, hasFinishB c = false) →
      ∀ e ∈ (runStream a cs).2, isDoneEvent e = false := by
  induction cs with
  | nil =>
      intro a _ e he
      simp [runStream] at he
  | cons c rest ih =>
      intro a hnf e he
      simp only [runStream] at he
      rcases List.mem_append.mp he with he | he
      · exact ConvertChunk_noDones a c (hnf c (List.mem_cons_self _ _)) e he
      · exact ih _ (fun c2 hc2 => hnf c2 (List.mem_cons_of_mem _ hc2)) e he

theorem countP_zero_of_sub {es : List StreamEvent} {p q : StreamEvent → Bool}
    (hq : ∀ e ∈ es, q e = false) (hsub : ∀ e, p e = true → q e = true) :
    es.countP p = 0 := by
  refine countP_zero_of_false ?_
  intro e he
  cases hp : p e
  · rfl
  · have h1 := hq e he
    rw [hsub e hp] at h1
    exact Bool.noConfusion h1

theorem isMsgItemDone_sub_done (e : StreamEvent) :
    isMsgItemDone e = true → isDoneEvent e = true := by
  cases e <;> simp [isMsgItemDone, isDoneEvent]

theorem isCpDone_sub_done (e : StreamEvent) :
    isCpDone e = true → isDoneEvent e = true := by
  cases e <;> simp [isCpDone, isDoneEvent]

theorem isFcDone_sub_done (id : String) (e : StreamEvent) :
    isFcDone id e = true → isDoneEvent e = true := by
  cases e <;> simp [isFcDone, isDoneEvent]

theorem isCompleted_sub_done (e : StreamEvent) :
    isCompleted e = true → isDoneEvent e = true := by
  cases e <;> simp [isCompleted, isDoneEvent]

theorem countP_createFinishEvents_done (a : ChatToResponsesStreamAdapter)
    (usage : Option Usage) (fr : String) (ht : a.hasTextContent = true) :
    (createFinishEvents a usage fr).countP isMsgItemDone = 1 ∧
    (createFinishEvents a usage fr).countP isCpDone = 1 := by
  have hflat : ∀ p : StreamEvent → Bool,
      (∀ q ∈ a.toolCallItemIDs, p (createFunctionCallArgumentsDoneEvent a q.1) = false ∧
        p (createFunctionCallDoneEvent a q.1) = false) →
      ((a.toolCallItemIDs.map (fun q =>
        [createFunctionCallArgumentsDoneEvent a q.1,
         createFunctionCallDoneEvent a q.1])).flatten).countP p = 0 := by
    intro p hp
    refine countP_zero_of_false ?_
    intro e he
    obtain ⟨l, hl, hel⟩ := List.mem_flatten.mp he
    obtain ⟨q, hq, rfl⟩ := List.mem_map.mp hl
    rcases List.mem_cons.mp hel with rfl | hel2
    · exact (hp q hq).1
    · rcases List.mem_singleton.mp hel2 with rfl
      exact (hp q hq).2
  constructor <;>
  · simp only [createFinishEvents, ht, if_true, List.countP_append]
    rw [hflat _ (fun q hq => ⟨rfl, rfl⟩)]
    rfl

theorem countP_createFinishEvents_fcAdded (a : ChatToResponsesStreamAdapter)
    (usage : Option Usage) (fr : String) (id : String) :
    (createFinishEvents a usage fr).countP (isFcAdded id) = 0 := by
  refine countP_zero_of_false ?_
  intro e he
  rcases mem_createFinishEvents he with ⟨p, hp, rfl | rfl⟩ | rfl | rfl | rfl | rfl <;> rfl

theorem countP_createFinishEvents_fcDone (a : ChatToResponsesStreamAdapter)
    (usage : Option Usage) (fr : String)
    (hnd : (a.toolCallItemIDs.map Prod.fst).Nodup) (id : String) :
    (createFinishEvents a usage fr).countP (isFcDone id) =
      (a.toolCallItemIDs.map Prod.snd).count id := by
  unfold createFinishEvents
  rw [List.countP_append, List.countP_append]
  have h1 : (if a.hasTextContent then
      [createTextDoneEvent a, createContentPartDoneEvent a, createOutputItemDoneEvent a]
      else []).countP (isFcDone id) = 0 := by
    cases ht : a.hasTextContent <;>
      simp [isFcDone, createTextDoneEvent, createContentPartDoneEvent,
        createOutputItemDoneEvent]
  have h2 : ((a.toolCallItemIDs.map (fun p =>
      [createFunctionCallArgumentsDoneEvent a p.1,
       createFunctionCallDoneEvent a p.1])).flatten).countP (isFcDone id) =
      (a.toolCallItemIDs.map (fun p => if p.2 = id then 1 else 0)).sum := by
    refine countP_flatten_map _ _ _ _ ?_
    intro p hp
    have hl : lookupAssoc a.toolCallItemIDs p.1 = some p.2 := by
      cases p with
      | mk pk pv => exact lookupAssoc_of_mem hnd hp
    simp [createFunctionCallArgumentsDoneEvent, createFunctionCallDoneEvent, isFcDone,
      List.countP_cons, hl]
  rw [h1, h2, sum_ite_eq_count]
  simp [isFcDone, createResponseCompletedEvent]

theorem createFinishEvents_split (a : ChatToResponsesStreamAdapter)
    (usage : Option Usage) (fr : String) :
    ∃ F0, createFinishEvents a usage fr =
        F0 ++ [createResponseCompletedEvent a usage fr] ∧
      F0.countP isCompleted = 0 := by
  refine ⟨(if a.hasTextContent then
      [createTextDoneEvent a, createContentPartDoneEvent a, createOutputItemDoneEvent a]
      else []) ++
      (a.toolCallItemIDs.map (fun p =>
        [createFunctionCallArgumentsDoneEvent a p.1,
         createFunctionCallDoneEvent a p.1])).flatten, rfl, ?_⟩
  rw [List.countP_append]
  have h1 : (if a.hasTextContent then
      [createTextDoneEvent a, createContentPartDoneEvent a, createOutputItemDoneEvent a]
      else []).countP isCompleted = 0 := by
    cases ht : a.hasTextContent <;>
      simp [isCompleted, createTextDoneEvent, createContentPartDoneEvent,
        createOutputItemDoneEvent]
  have h2 : ((a.toolCallItemIDs.map (fun p =>
      [createFunctionCallArgumentsDoneEvent a p.1,
       createFunctionCallDoneEvent a p.1])).flatten).countP isCompleted = 0 := by
    refine countP_zero_of_false ?_
    intro e he
    obtain ⟨l, hl, hel⟩ := List.mem_flatten.mp he
    obtain ⟨q, hq, rfl⟩ := List.mem_map.mp hl
    rcases List.mem_cons.mp hel with rfl | hel2
    · rfl
    · rcases List.mem_singleton.mp hel2 with rfl
      rfl
  omega

theorem A_phase_counts (t : Int) (first : ChatCompletionsStreamResponse)
    (rest : List ChatCompletionsStreamResponse)
    (hrole : roleOf first = "assistant")
    (hroleRest : ∀ c ∈ rest, roleOf c ≠ "assistant") :
    (runStream (NewChatToResponsesStreamAdapter t) (first :: rest)).2.countP
      isMsgItemAdded = 1 ∧
    (runStream (NewChatToResponsesStreamAdapter t) (first :: rest)).2.countP
      isCpAdded = 1 := by
  have h1 := ConvertChunk_countAdded (NewChatToResponsesStreamAdapter t) first
  have hcond : roleOf first = "assistant" ∧
      (NewChatToResponsesStreamAdapter t).hasTextContent = false := ⟨hrole, rfl⟩
  have h2 := runStream_noRole_added rest
    (ConvertChunk (NewChatToResponsesStreamAdapter t) (some first)).1 hroleRest
  constructor
  · simp only [runStream, List.countP_append]
    rw [h1.1, if_pos hcond, h2.1]
  · simp only [runStream, List.countP_append]
    rw [h1.2, if_pos hcond, h2.2]

/-- C2 (amended): for streams in which exactly the first chunk announces
the assistant role, some chunk carries non-empty text content, and
exactly the last chunk carries a non-empty finish reason, every
`output_item.added` and `content_part.added` is matched by exactly one
corresponding `*.done` (the message item and its content part exactly
once each, and function call items in added/done bijection by item id),
no `*.done` is emitted before its matching `*.added` (every prefix has
at least as many added as done events per kind), and the single
`response.completed` event is the final event. The original claim fails
on streams outside this shape (see the counterexample). -/
theorem C2_added_done_pairing (t : Int)
    (body : List ChatCompletionsStreamResponse) (lastc : ChatCompletionsStreamResponse)
    (hrole : roleOf (body.headD lastc) = "assistant")
    (hroleRest : ∀ c ∈ (body ++ [lastc]).drop 1, roleOf c ≠ "assistant")
    (hnf : ∀ c ∈ body, hasFinishB c = false)
    (hf : hasFinishB lastc = true)
    (hcontent : someContentB (body ++ [lastc]) = true)
    (es : List StreamEvent)
    (hes : es = (runStream (NewChatToResponsesStreamAdapter t) (body ++ [lastc])).2) :
    es.countP isMsgItemAdded = 1 ∧ es.countP isMsgItemDone = 1 ∧
    es.countP isCpAdded = 1 ∧ es.countP isCpDone = 1 ∧
    (∀ id, es.countP (isFcAdded id) = es.countP (isFcDone id)) ∧
    (∀ n, ((es.take n).countP isMsgItemDone ≤ (es.take n).countP isMsgItemAdded) ∧
      ((es.take n).countP isCpDone ≤ (es.take n).countP isCpAdded) ∧
      (∀ id, (es.take n).countP (isFcDone id) ≤ (es.take n).countP (isFcAdded id))) ∧
    (∃ es0 ev, es = es0 ++ [ev] ∧ isCompleted ev = true ∧
      es0.countP isCompleted = 0) := by
  subst hes
  rw [runStream_lastFinish _ body lastc hf]
  set LA := body ++ [stripFinish lastc] with hLAdef
  set aA := (runStream (NewChatToResponsesStreamAdapter t) LA).1 with haA
  set EA := (runStream (NewChatToResponsesStreamAdapter t) LA).2 with hEAdef
  set F := createFinishEvents aA lastc.usage (finishReasonOf lastc) with hFdef
  have hLAnf : ∀ c ∈ LA, hasFinishB c = false := by
    intro c hc
    rcases List.mem_append.mp hc with hc | hc
    · exact hnf c hc
    · rcases List.mem_singleton.mp hc with rfl
      exact hasFinishB_stripFinish lastc
  have hInv : FcInv aA EA := by
    rw [haA, hEAdef]
    have h0 := FcInv_runStream LA (NewChatToResponsesStreamAdapter t) [] (FcInv_new t)
    simpa using h0
  have hht : aA.hasTextContent = true := by
    rw [haA, runStream_hasText]
    have h1 : someContentB LA = someContentB (body ++ [lastc]) := by
      simp [someContentB, hLAdef, List.any_append, contentB_stripFinish]
    simp [NewChatToResponsesStreamAdapter, h1, hcontent]
  have hEAnoDones : ∀ e ∈ EA, isDoneEvent e = false := by
    rw [hEAdef]
    exact runStream_noFinish_noDones LA _ hLAnf
  have hAdded : EA.countP isMsgItemAdded = 1 ∧ EA.countP isCpAdded = 1 := by
    rw [hEAdef]
    cases hb : body with
    | nil =>
        have hr : roleOf (stripFinish lastc) = "assistant" := by
          rw [roleOf_stripFinish]
          rw [hb] at hrole
          exact hrole
        have := A_phase_counts t (stripFinish lastc) [] hr (by intro c hc; simp at hc)
        rw [hLAdef, hb]
        simpa using this
    | cons b bs =>
        have hr : roleOf b = "assistant" := by
          rw [hb] at hrole
          exact hrole
        have hrest : ∀ c ∈ bs ++ [stripFinish lastc], roleOf c ≠ "assistant" := by
          intro c hc
          rcases List.mem_append.mp hc with hc | hc
          · refine hroleRest c ?_
            rw [hb]
            simp [hc]
          · rcases List.mem_singleton.mp hc with rfl
            rw [roleOf_stripFinish]
            refine hroleRest lastc ?_
            rw [hb]
            simp
        have := A_phase_counts t b (bs ++ [stripFinish lastc]) hr hrest
        rw [hLAdef, hb]
        simpa using this
  have hMsgDoneEA : EA.countP isMsgItemDone = 0 :=
    countP_zero_of_sub hEAnoDones isMsgItemDone_sub_done
  have hCpDoneEA : EA.countP isCpDone = 0 :=
    countP_zero_of_sub hEAnoDones isCpDone_sub_done
  have hFcDoneEA : ∀ id, EA.countP (isFcDone id) = 0 := fun id =>
    countP_zero_of_sub hEAnoDones (isFcDone_sub_done id)
  have hComplEA : EA.countP isCompleted = 0 :=
    countP_zero_of_sub hEAnoDones isCompleted_sub_done
  have hFdone := countP_createFinishEvents_done aA lastc.usage (finishReasonOf lastc) hht
  have hFaddzero := countP_createFinishEvents_added aA lastc.usage (finishReasonOf lastc)
  have hFfcAdded : ∀ id, F.countP (isFcAdded id) = 0 := fun id =>
    countP_createFinishEvents_fcAdded aA lastc.usage (finishReasonOf lastc) id
  have hFfcDone : ∀ id, F.countP (isFcDone id) =
      (aA.toolCallItemIDs.map Prod.snd).count id := fun id =>
    countP_createFinishEvents_fcDone aA lastc.usage (finishReasonOf lastc)
      hInv.keysNodup id
  have hEAfcAdded : ∀ id, EA.countP (isFcAdded id) =
      (aA.toolCallItemIDs.map Prod.snd).count id := by
    intro id
    rw [countP_isFcAdded, hInv.addedIds]
  refine ⟨?_, ?_, ?_, ?_, ?_, ?_, ?_⟩
  · rw [List.countP_append, hAdded.1, hFaddzero.1]
  · rw [List.countP_append, hMsgDoneEA, hFdone.1]
  · rw [List.countP_append, hAdded.2, hFaddzero.2]
  · rw [List.countP_append, hCpDoneEA, hFdone.2]
  · intro id
    rw [List.countP_append, List.countP_append, hEAfcAdded, hFfcAdded,
      hFcDoneEA, hFfcDone]
    omega
  · intro n
    refine ⟨?_, ?_, ?_⟩
    · refine pairing_take EA F isMsgItemDone isMsgItemAdded hMsgDoneEA ?_ n
      rw [hFdone.1, hAdded.1]
    · refine pairing_take EA F isCpDone isCpAdded hCpDoneEA ?_ n
      rw [hFdone.2, hAdded.2]
    · intro id
      refine pairing_take EA F (isFcDone id) (isFcAdded id) (hFcDoneEA id) ?_ n
      rw [hFfcDone id, hEAfcAdded id]
  · obtain ⟨F0, hF0, hF0compl⟩ :=
      createFinishEvents_split aA lastc.usage (finishReasonOf lastc)
    refine ⟨EA ++ F0, createResponseCompletedEvent aA lastc.usage (finishReasonOf lastc),
      ?_, rfl, ?_⟩
    · rw [hFdef, hF0, ← List.append_assoc]
    · rw [List.countP_append, hComplEA, hF0compl]

/-- Witness for C2: the single-chunk text stream satisfies the amended
pairing; the message added and done events each occur exactly once. -/
theorem C2_added_done_pairing_witness :
    ((runStream (NewChatToResponsesStreamAdapter 0) [c4Chunk]).2.countP
      isMsgItemAdded = 1) ∧
    ((runStream (NewChatToResponsesStreamAdapter 0) [c4Chunk]).2.countP
      isMsgItemDone = 1) :=
  ⟨(C2_added_done_pairing 0 [] c4Chunk (by decide) (by decide) (by decide) (by decide)
      (by decide) _ rfl).1,
   (C2_added_done_pairing 0 [] c4Chunk (by decide) (by decide) (by decide) (by decide)
      (by decide) _ rfl).2.1⟩

theorem argsDoneArgs_append (es1 es2 : List StreamEvent) (id : String) :
    argsDoneArgs (es1 ++ es2) id = argsDoneArgs es1 id ++ argsDoneArgs es2 id := by
  simp [argsDoneArgs, List.filterMap_append]

theorem fcDoneArgs_append (es1 es2 : List StreamEvent) (id : String) :
    fcDoneArgs (es1 ++ es2) id = fcDoneArgs es1 id ++ fcDoneArgs es2 id := by
  simp [fcDoneArgs, List.filterMap_append]

theorem argsDoneArgs_eq_nil (es : List StreamEvent) (id : String)
    (h : ∀ e ∈ es, isDoneEvent e = false) : argsDoneArgs es id = [] := by
  rw [argsDoneArgs, List.filterMap_eq_nil_iff]
  intro e he
  have := h e he
  cases e <;> simp_all [isDoneEvent]

theorem fcDoneArgs_eq_nil (es : List StreamEvent) (id : String)
    (h : ∀ e ∈ es, isDoneEvent e = false) : fcDoneArgs es id = [] := by
  rw [fcDoneArgs, List.filterMap_eq_nil_iff]
  intro e he
  have := h e he
  cases e <;> simp_all [isDoneEvent]

theorem createFinishEvents_no_delta (a : ChatToResponsesStreamAdapter)
    (usage : Option Usage) (fr : String) (id : String) :
    argsDeltaConcat (createFinishEvents a usage fr) id = "" := by
  refine argsDeltaConcat_no_delta _ id ?_
  intro e he i oi d heq
  rcases mem_createFinishEvents he with ⟨p, hp, heq2 | heq2⟩ | rfl | rfl | rfl | rfl
  · rw [heq] at heq2; exact StreamEvent.noConfusion heq2
  · rw [heq] at heq2; exact StreamEvent.noConfusion heq2
  all_goals exact StreamEvent.noConfusion heq

theorem filterMap_flatten_map {α β : Type} (l : List α) (g : α → List StreamEvent)
    (f : StreamEvent → Option β) (h : α → List β)
    (hgh : ∀ x ∈ l, (g x).filterMap f = h x) :
    ((l.map g).flatten).filterMap f = (l.map h).flatten := by
  induction l with
  | nil => rfl
  | cons x rest ih =>
      simp only [List.map_cons, List.flatten_cons, List.filterMap_append]
      rw [hgh x (List.mem_cons_self _ _), ih (fun y hy => hgh y (List.mem_cons_of_mem _ hy))]

theorem flatten_ite_eq_single {β : Type} (m : List (Int × String)) (id : String)
    (w : Int × String → List β) (idx : Int)
    (hids : (m.map Prod.snd).Nodup) (hmem : (idx, id) ∈ m) :
    (m.map (fun p => if p.2 = id then w p else [])).flatten = w (idx, id) := by
  induction m with
  | nil => simp at hmem
  | cons q rest ih =>
      rw [List.map_cons, List.nodup_cons] at hids
      rcases List.mem_cons.mp hmem with h | h
      · cases h
        have hrest : (rest.map (fun p => if p.2 = id then w p else [])).flatten =
            ([] : List β) := by
          rw [List.flatten_eq_nil_iff]
          intro xs hxs
          rw [List.mem_map] at hxs
          obtain ⟨p, hp, rfl⟩ := hxs
          have hne : p.2 ≠ id := by
            intro he
            have hp2 : p.2 ∈ rest.map Prod.snd := List.mem_map_of_mem Prod.snd hp
            rw [he] at hp2
            exact hids.1 hp2
          simp [hne]
        simp only [List.map_cons, List.flatten_cons, hrest]
        simp
      · have hne : q.2 ≠ id := by
          intro he
          refine hids.1 ?_
          rw [he]
          exact List.mem_map_of_mem Prod.snd h
        simp only [List.map_cons, List.flatten_cons, if_neg hne, List.nil_append]
        exact ih hids.2 h

theorem doneArgs_createFinishEvents (a : ChatToResponsesStreamAdapter)
    (usage : Option Usage) (fr : String) (idx : Int) (id : String)
    (hnd : (a.toolCallItemIDs.map Prod.fst).Nodup)
    (hids : (a.toolCallItemIDs.map Prod.snd).Nodup)
    (hmem : (idx, id) ∈ a.toolCallItemIDs) :
    argsDoneArgs (createFinishEvents a usage fr) id =
      [(lookupAssoc a.toolCallArguments idx).getD ""] ∧
    fcDoneArgs (createFinishEvents a usage fr) id =
      [(lookupAssoc a.toolCallArguments idx).getD ""] := by
  have key1 : ∀ p ∈ a.toolCallItemIDs,
      ([createFunctionCallArgumentsDoneEvent a p.1,
        createFunctionCallDoneEvent a p.1]).filterMap (fun e => match e with
          | .functionCallArgumentsDone i _ args => if i == id then some args else none
          | _ => none) =
        (if p.2 = id then [(lookupAssoc a.toolCallArguments p.1).getD ""] else []) := by
    intro p hp
    have hl : lookupAssoc a.toolCallItemIDs p.1 = some p.2 := by
      cases p with
      | mk pk pv => exact lookupAssoc_of_mem hnd hp
    by_cases hpid : p.2 = id <;>
      simp [createFunctionCallArgumentsDoneEvent, createFunctionCallDoneEvent,
        List.filterMap_cons, hl, hpid]
  have key2 : ∀ p ∈ a.toolCallItemIDs,
      ([createFunctionCallArgumentsDoneEvent a p.1,
        createFunctionCallDoneEvent a p.1]).filterMap (fun e => match e with
          | .outputItemDoneFunctionCall _ i args => if i == id then some args else none
          | _ => none) =
        (if p.2 = id then [(lookupAssoc a.toolCallArguments p.1).getD ""] else []) := by
    intro p hp
    have hl : lookupAssoc a.toolCallItemIDs p.1 = some p.2 := by
      cases p with
      | mk pk pv => exact lookupAssoc_of_mem hnd hp
    by_cases hpid : p.2 = id <;>
      simp [createFunctionCallArgumentsDoneEvent, createFunctionCallDoneEvent,
        List.filterMap_cons, hl, hpid]
  have h1a : argsDoneArgs (if a.hasTextContent then
      [createTextDoneEvent a, createContentPartDoneEvent a, createOutputItemDoneEvent a]
      else []) id = [] := by
    cases ht : a.hasTextContent <;>
      simp [argsDoneArgs, createTextDoneEvent, createContentPartDoneEvent,
        createOutputItemDoneEvent]
  have h1b : fcDoneArgs (if a.hasTextContent then
      [createTextDoneEvent a, createContentPartDoneEvent a, createOutputItemDoneEvent a]
      else []) id = [] := by
    cases ht : a.hasTextContent <;>
      simp [fcDoneArgs, createTextDoneEvent, createContentPartDoneEvent,
        createOutputItemDoneEvent]
  have h3a : argsDoneArgs [createResponseCompletedEvent a usage fr] id = [] := by
    simp [argsDoneArgs, createResponseCompletedEvent]
  have h3b : fcDoneArgs [createResponseCompletedEvent a usage fr] id = [] := by
    simp [fcDoneArgs, createResponseCompletedEvent]
  constructor
  · rw [createFinishEvents, argsDoneArgs_append, argsDoneArgs_append, h1a, h3a,
      List.nil_append, List.append_nil]
    rw [argsDoneArgs, filterMap_flatten_map _ _ _ _ key1]
    exact flatten_ite_eq_single a.toolCallItemIDs id
      (fun p => [(lookupAssoc a.toolCallArguments p.1).getD ""]) idx hids hmem
  · rw [createFinishEvents, fcDoneArgs_append, fcDoneArgs_append, h1b, h3b,
      List.nil_append, List.append_nil]
    rw [fcDoneArgs, filterMap_flatten_map _ _ _ _ key2]
    exact flatten_ite_eq_single a.toolCallItemIDs id
      (fun p => [(lookupAssoc a.toolCallArguments p.1).getD ""]) idx hids hmem

/-- C5: in a stream whose unique finishing chunk is the last one, every
tool call item recorded by the adapter has exactly one
`function_call_arguments.done` event and exactly one function call
`output_item.done` event, and both carry as `arguments` exactly the
concatenation, in emission order, of the `delta` payloads of that item
id, reconstructing the accumulated argument string. -/
theorem C5_argument_reconstruction (t : Int)
    (body : List ChatCompletionsStreamResponse) (lastc : ChatCompletionsStreamResponse)
    (hnf : ∀ c ∈ body, hasFinishB c = false)
    (hf : hasFinishB lastc = true)
    (es : List StreamEvent)
    (hes : es = (runStream (NewChatToResponsesStreamAdapter t) (body ++ [lastc])).2)
    (idx : Int) (id : String)
    (hmem : (idx, id) ∈
      (runStream (NewChatToResponsesStreamAdapter t) (body ++ [lastc])).1.toolCallItemIDs) :
    argsDoneArgs es id = [argsDeltaConcat es id] ∧
    fcDoneArgs es id = [argsDeltaConcat es id] := by
  subst hes
  rw [runStream_lastFinish _ body lastc hf] at hmem ⊢
  set LA := body ++ [stripFinish lastc] with hLAdef
  set aA := (runStream (NewChatToResponsesStreamAdapter t) LA).1 with haA
  set EA := (runStream (NewChatToResponsesStreamAdapter t) LA).2 with hEAdef
  set F := createFinishEvents aA lastc.usage (finishReasonOf lastc) with hFdef
  have hmem2 : (idx, id) ∈ aA.toolCallItemIDs := hmem
  have hLAnf : ∀ c ∈ LA, hasFinishB c = false := by
    intro c hc
    rcases List.mem_append.mp hc with hc | hc
    · exact hnf c hc
    · rcases List.mem_singleton.mp hc with rfl
      exact hasFinishB_stripFinish lastc
  have hInv : FcInv aA EA := by
    rw [haA, hEAdef]
    simpa using FcInv_runStream LA (NewChatToResponsesStreamAdapter t) [] (FcInv_new t)
  have hEAnoDones : ∀ e ∈ EA, isDoneEvent e = false := by
    rw [hEAdef]
    exact runStream_noFinish_noDones LA _ hLAnf
  have hF := doneArgs_createFinishEvents aA lastc.usage (finishReasonOf lastc) idx id
    hInv.keysNodup hInv.idsNodup hmem2
  have hacc : lookupAssoc aA.toolCallArguments idx = some (argsDeltaConcat EA id) :=
    hInv.argsAcc (idx, id) hmem2
  have hdc : argsDeltaConcat (EA ++ F) id = argsDeltaConcat EA id := by
    rw [hFdef, argsDeltaConcat_append, createFinishEvents_no_delta, String.append_empty]
  rw [← hFdef] at hF
  constructor
  · rw [argsDoneArgs_append, argsDoneArgs_eq_nil EA id hEAnoDones, List.nil_append,
      hdc, hF.1, hacc]
    rfl
  · rw [fcDoneArgs_append, fcDoneArgs_eq_nil EA id hEAnoDones, List.nil_append,
      hdc, hF.2, hacc]
    rfl

/-- Witness for C5: the single finishing tool-call chunk yields one
arguments done event and one item done event, both carrying the single
accumulated delta. -/
theorem C5_argument_reconstruction_witness :
    argsDoneArgs (runStream (NewChatToResponsesStreamAdapter 0) ([] ++ [c5Chunk])).2
        ("fc_" ++ uuid 2) =
      [argsDeltaConcat (runStream (NewChatToResponsesStreamAdapter 0) ([] ++ [c5Chunk])).2
        ("fc_" ++ uuid 2)] ∧
    fcDoneArgs (runStream (NewChatToResponsesStreamAdapter 0) ([] ++ [c5Chunk])).2
        ("fc_" ++ uuid 2) =
      [argsDeltaConcat (runStream (NewChatToResponsesStreamAdapter 0) ([] ++ [c5Chunk])).2
        ("fc_" ++ uuid 2)] :=
  C5_argument_reconstruction 0 [] c5Chunk (by decide) (by decide) _ rfl 0
    ("fc_" ++ uuid 2) (by decide)

theorem Inv3_state_frame {a : ChatToResponsesStreamAdapter} {es : List StreamEvent}
    (h : Inv3 a es) (a2 : ChatToResponsesStreamAdapter)
    (h1 : a2.toolCallItemIDs = a.toolCallItemIDs)
    (h2 : a2.toolCallArguments = a.toolCallArguments)
    (h3 : a.nextUUID ≤ a2.nextUUID)
    (h4 : a2.outputIndex = a.outputIndex)
    (h5 : a2.hasTextContent = a.hasTextContent) : Inv3 a2 es := by
  refine ⟨FcInv_state_frame h.fc a2 h1 h2 h3 h4, ?_, ?_, ?_⟩
  · rw [h1]
    exact h.keysConsec
  · rw [h1, h5]
    exact h.textIfTools
  · intro e he i hei
    obtain ⟨p, hp, hpi, hpo⟩ := h.evOK e he i hei
    exact ⟨p, by rw [h1]; exact hp, hpi, hpo⟩

theorem Inv3_append_nonFc {a : ChatToResponsesStreamAdapter} {es : List StreamEvent}
    (h : Inv3 a es) (es2 : List StreamEvent)
    (hn : ∀ e ∈ es2, fcEventId e = none) : Inv3 a (es ++ es2) := by
  refine ⟨FcInv_append_nonFc h.fc es2 hn, h.keysConsec, h.textIfTools, ?_⟩
  intro e he i hei
  rcases List.mem_append.mp he with he | he
  · exact h.evOK e he i hei
  · rw [hn e he] at hei
    exact Option.noConfusion hei

theorem Inv3_mono_nonFc {a a2 : ChatToResponsesStreamAdapter} {es : List StreamEvent}
    (h : Inv3 a es) (es2 : List StreamEvent)
    (h1 : a2.toolCallItemIDs = a.toolCallItemIDs)
    (h2 : a2.toolCallArguments = a.toolCallArguments)
    (h3 : a.nextUUID ≤ a2.nextUUID)
    (h4 : a2.outputIndex = a.outputIndex)
    (h5 : a2.hasTextContent = a.hasTextContent)
    (hn : ∀ e ∈ es2, fcEventId e = none) :
    Inv3 a2 (es ++ es2) :=
  Inv3_append_nonFc (Inv3_state_frame h a2 h1 h2 h3 h4 h5) es2 hn

theorem processRole_nonFc (a : ChatToResponsesStreamAdapter) (delta : ChatDelta) :
    ∀ e ∈ (processRole a delta).2, fcEventId e = none := by
  intro e he
  rcases mem_processRole he with rfl | rfl <;> rfl

theorem processText_nonFc (a : ChatToResponsesStreamAdapter) (delta : ChatDelta) :
    ∀ e ∈ (processText a delta).2, fcEventId e = none := by
  intro e he
  obtain ⟨c, rfl⟩ := mem_processText he
  rfl

theorem Inv3_processText {a : ChatToResponsesStreamAdapter} {es : List StreamEvent}
    (h : Inv3 a es) (delta : ChatDelta) :
    Inv3 (processText a delta).1 (es ++ (processText a delta).2) := by
  refine ⟨FcInv_processText h.fc delta, ?_, ?_, ?_⟩
  · rw [(processText_fields a delta).1]
    exact h.keysConsec
  · intro hne
    rw [(processText_fields a delta).1] at hne
    rw [(processText_fields a delta).2.2.2.2, h.textIfTools hne]
    simp
  · intro e he i hei
    rcases List.mem_append.mp he with he | he
    · obtain ⟨p, hp, hpi, hpo⟩ := h.evOK e he i hei
      exact ⟨p, by rw [(processText_fields a delta).1]; exact hp, hpi, hpo⟩
    · rw [processText_nonFc a delta e he] at hei
      exact Option.noConfusion hei

theorem Inv3_append_finish {a : ChatToResponsesStreamAdapter} {es : List StreamEvent}
    (h : Inv3 a es) (usage : Option Usage) (fr : String) :
    Inv3 a (es ++ createFinishEvents a usage fr) := by
  refine ⟨FcInv_append_finish h.fc usage fr, h.keysConsec, h.textIfTools, ?_⟩
  intro e he i hei
  rcases List.mem_append.mp he with he | he
  · exact h.evOK e he i hei
  · rcases mem_createFinishEvents he with ⟨p, hp, heq | heq⟩ | rfl | rfl | rfl | rfl
    · have hl : lookupAssoc a.toolCallItemIDs p.1 = some p.2 := by
        cases p with
        | mk pk pv => exact lookupAssoc_of_mem h.fc.keysNodup hp
      have ht : a.hasTextContent = true := h.textIfTools (List.ne_nil_of_mem hp)
      subst heq
      simp [createFunctionCallArgumentsDoneEvent, fcEventId, hl] at hei
      exact ⟨p, hp, hei,
        by simp [createFunctionCallArgumentsDoneEvent, fcEventOutputIndex, ht]⟩
    · have hl : lookupAssoc a.toolCallItemIDs p.1 = some p.2 := by
        cases p with
        | mk pk pv => exact lookupAssoc_of_mem h.fc.keysNodup hp
      have ht : a.hasTextContent = true := h.textIfTools (List.ne_nil_of_mem hp)
      subst heq
      simp [createFunctionCallDoneEvent, fcEventId, hl] at hei
      exact ⟨p, hp, hei,
        by simp [createFunctionCallDoneEvent, fcEventOutputIndex, ht]⟩
    all_goals exact Option.noConfusion hei

theorem Inv3_processToolCalls (tcs : List ToolCallDelta) :
    ∀ (a : ChatToResponsesStreamAdapter) (es : List StreamEvent) (s2 : List Int),
      Inv3 a es → a.hasTextContent = true →
      consecTools (a.toolCallItemIDs.map Prod.fst) tcs = some s2 →
      Inv3 (processToolCalls a tcs).1 (es ++ (processToolCalls a tcs).2) ∧
      (processToolCalls a tcs).1.toolCallItemIDs.map Prod.fst = s2 := by
  induction tcs with
  | nil =>
      intro a es s2 h ht hc
      simp only [consecTools] at hc
      obtain rfl : a.toolCallItemIDs.map Prod.fst = s2 := Option.some.inj hc
      exact ⟨by simpa [processToolCalls] using h, by simp [processToolCalls]⟩
  | cons tc rest ih =>
      intro a es s2 h ht hc
      simp only [consecTools] at hc
      by_cases hmem : tc.index.getD 0 ∈ a.toolCallItemIDs.map Prod.fst
      · rw [if_pos hmem] at hc
        obtain ⟨itemID, hl⟩ : ∃ v,
            lookupAssoc a.toolCallItemIDs (tc.index.getD 0) = some v := by
          cases hl0 : lookupAssoc a.toolCallItemIDs (tc.index.getD 0) with
          | some v => exact ⟨v, rfl⟩
          | none => exact absurd hmem ((lookupAssoc_eq_none _ _).mp hl0)
        have hpmem : (tc.index.getD 0, itemID) ∈ a.toolCallItemIDs := mem_of_lookupAssoc hl
        have hkeysEq : (processToolCall a tc).1.toolCallItemIDs = a.toolCallItemIDs := by
          by_cases hargs : tc.function.arguments = ""
          · rw [processToolCall_old_noargs a tc hl hargs]
          · rw [processToolCall_old_args a tc hl hargs]
        have hInv2 : Inv3 (processToolCall a tc).1 (es ++ (processToolCall a tc).2) := by
          refine ⟨FcInv_processToolCall a tc es h.fc, ?_, ?_, ?_⟩
          · rw [hkeysEq]
            exact h.keysConsec
          · intro _
            rw [processToolCall_hasText]
            exact ht
          · intro e he i hei
            by_cases hargs : tc.function.arguments = ""
            · rw [processToolCall_old_noargs a tc hl hargs] at he
              have he2 : e ∈ es := by simpa using he
              obtain ⟨p, hp, hpi, hpo⟩ := h.evOK e he2 i hei
              exact ⟨p, by rw [hkeysEq]; exact hp, hpi, hpo⟩
            · rw [processToolCall_old_args a tc hl hargs] at he
              have he2 : e ∈ es ++ [StreamEvent.functionCallArgumentsDelta itemID
                  (if a.hasTextContent then tc.index.getD 0 + 1 else tc.index.getD 0)
                  tc.function.arguments] := he
              rcases List.mem_append.mp he2 with he3 | he3
              · obtain ⟨p, hp, hpi, hpo⟩ := h.evOK e he3 i hei
                exact ⟨p, by rw [hkeysEq]; exact hp, hpi, hpo⟩
              · rcases List.mem_singleton.mp he3 with rfl
                have hii : itemID = i := by simpa [fcEventId] using hei
                cases hii
                refine ⟨(tc.index.getD 0, itemID), ?_, rfl, ?_⟩
                · rw [hkeysEq]
                  exact hpmem
                · simp [fcEventOutputIndex, ht]
        have ht2 : (processToolCall a tc).1.hasTextContent = true := by
          rw [processToolCall_hasText]
          exact ht
        have hc2 : consecTools ((processToolCall a tc).1.toolCallItemIDs.map Prod.fst)
            rest = some s2 := by
          rw [hkeysEq]
          exact hc
        have ih2 := ih (processToolCall a tc).1 (es ++ (processToolCall a tc).2) s2
          hInv2 ht2 hc2
        refine ⟨?_, ?_⟩
        · simp only [processToolCalls]
          rw [← List.append_assoc]
          exact ih2.1
        · simp only [processToolCalls]
          exact ih2.2
      · rw [if_neg hmem] at hc
        by_cases hlen : tc.index.getD 0 = Int.ofNat (a.toolCallItemIDs.map Prod.fst).length
        · rw [if_pos hlen] at hc
          have hl : lookupAssoc a.toolCallItemIDs (tc.index.getD 0) = none :=
            (lookupAssoc_eq_none _ _).mpr hmem
          have hlen2 : tc.index.getD 0 = Int.ofNat a.toolCallItemIDs.length := by
            simpa using hlen
          have hset : setAssoc a.toolCallItemIDs (tc.index.getD 0)
              ("fc_" ++ uuid a.nextUUID) =
              a.toolCallItemIDs ++ [(tc.index.getD 0, "fc_" ++ uuid a.nextUUID)] :=
            setAssoc_not_mem _ _ _ hmem
          have hkeysEq : (processToolCall a tc).1.toolCallItemIDs =
              a.toolCallItemIDs ++ [(tc.index.getD 0, "fc_" ++ uuid a.nextUUID)] := by
            by_cases hargs : tc.function.arguments = ""
            · rw [processToolCall_new_noargs a tc hl hargs]
              exact hset
            · rw [processToolCall_new_args a tc hl hargs]
              exact hset
          have hkc : (processToolCall a tc).1.toolCallItemIDs.map Prod.fst =
              (List.range (processToolCall a tc).1.toolCallItemIDs.length).map
                Int.ofNat := by
            rw [hkeysEq]
            simp [h.keysConsec, hlen2, List.range_succ]
          have hnewmem : (tc.index.getD 0, "fc_" ++ uuid a.nextUUID) ∈
              (processToolCall a tc).1.toolCallItemIDs := by
            rw [hkeysEq]
            exact List.mem_append_right _ (List.mem_singleton.mpr rfl)
          have hout : a.outputIndex + 1 = tc.index.getD 0 + 1 := by
            rw [h.fc.outIdx, hlen2]
          have hInv2 : Inv3 (processToolCall a tc).1 (es ++ (processToolCall a tc).2) := by
            refine ⟨FcInv_processToolCall a tc es h.fc, hkc, ?_, ?_⟩
            · intro _
              rw [processToolCall_hasText]
              exact ht
            · intro e he i hei
              by_cases hargs : tc.function.arguments = ""
              · rw [processToolCall_new_noargs a tc hl hargs] at he
                have he2 : e ∈ es ++ [StreamEvent.outputItemAddedFunctionCall
                    (a.outputIndex + 1) ("fc_" ++ uuid a.nextUUID)
                    tc.id tc.function.name] := he
                rcases List.mem_append.mp he2 with he3 | he3
                · obtain ⟨p, hp, hpi, hpo⟩ := h.evOK e he3 i hei
                  refine ⟨p, ?_, hpi, hpo⟩
                  rw [hkeysEq]
                  exact List.mem_append_left _ hp
                · rcases List.mem_singleton.mp he3 with rfl
                  have hii : "fc_" ++ uuid a.nextUUID = i := by
                    simpa [fcEventId] using hei
                  cases hii
                  refine ⟨(tc.index.getD 0, "fc_" ++ uuid a.nextUUID), hnewmem, rfl, ?_⟩
                  simp [fcEventOutputIndex, hout]
              · rw [processToolCall_new_args a tc hl hargs] at he
                have he2 : e ∈ es ++ [StreamEvent.outputItemAddedFunctionCall
                    (a.outputIndex + 1) ("fc_" ++ uuid a.nextUUID)
                    tc.id tc.function.name,
                  StreamEvent.functionCallArgumentsDelta ("fc_" ++ uuid a.nextUUID)
                    (if a.hasTextContent then tc.index.getD 0 + 1 else tc.index.getD 0)
                    tc.function.arguments] := he
                rcases List.mem_append.mp he2 with he3 | he3
                · obtain ⟨p, hp, hpi, hpo⟩ := h.evOK e he3 i hei
                  refine ⟨p, ?_, hpi, hpo⟩
                  rw [hkeysEq]
                  exact List.mem_append_left _ hp
                · rcases List.mem_cons.mp he3 with rfl | he4
                  · have hii : "fc_" ++ uuid a.nextUUID = i := by
                      simpa [fcEventId] using hei
                    cases hii
                    refine ⟨(tc.index.getD 0, "fc_" ++ uuid a.nextUUID), hnewmem, rfl, ?_⟩
                    simp [fcEventOutputIndex, hout]
                  · rcases List.mem_singleton.mp he4 with rfl
                    have hii : "fc_" ++ uuid a.nextUUID = i := by
                      simpa [fcEventId] using hei
                    cases hii
                    refine ⟨(tc.index.getD 0, "fc_" ++ uuid a.nextUUID), hnewmem, rfl, ?_⟩
                    simp [fcEventOutputIndex, ht]
          have ht2 : (processToolCall a tc).1.hasTextContent = true := by
            rw [processToolCall_hasText]
            exact ht
          have hc2 : consecTools ((processToolCall a tc).1.toolCallItemIDs.map Prod.fst)
              rest = some s2 := by
            rw [hkeysEq, List.map_append]
            exact hc
          have ih2 := ih (processToolCall a tc).1 (es ++ (processToolCall a tc).2) s2
            hInv2 ht2 hc2
          refine ⟨?_, ?_⟩
          · simp only [processToolCalls]
            rw [← List.append_assoc]
            exact ih2.1
          · simp only [processToolCalls]
            exact ih2.2
        · rw [if_neg hlen] at hc
          exact Option.noConfusion hc

theorem Inv3_processToolCallsGuard {a : ChatToResponsesStreamAdapter}
    {es : List StreamEvent} (h : Inv3 a es) (delta : ChatDelta) (s2 : List Int)
    (ht : delta.toolCalls ≠ [] → a.hasTextContent = true)
    (hcons : consecTools (a.toolCallItemIDs.map Prod.fst) delta.toolCalls = some s2) :
    Inv3 (processToolCallsGuard a delta).1 (es ++ (processToolCallsGuard a delta).2) ∧
    (processToolCallsGuard a delta).1.toolCallItemIDs.map Prod.fst = s2 := by
  unfold processToolCallsGuard
  split
  · rename_i hg
    exact Inv3_processToolCalls delta.toolCalls a es s2 h (ht hg) hcons
  · rename_i hg
    have hnil : delta.toolCalls = [] := not_ne_iff.mp hg
    rw [hnil] at hcons
    simp only [consecTools] at hcons
    obtain rfl : a.toolCallItemIDs.map Prod.fst = s2 := Option.some.inj hcons
    exact ⟨by simpa using h, rfl⟩

theorem Inv3_processChoice {a : ChatToResponsesStreamAdapter} {es : List StreamEvent}
    (h : Inv3 a es) (choice : ChatStreamChoice) (usage : Option Usage) (s2 : List Int)
    (htb : choice.delta.toolCalls ≠ [] →
      (a.hasTextContent || contentDeltaB choice.delta) = true)
    (hcons : consecTools (a.toolCallItemIDs.map Prod.fst) choice.delta.toolCalls
      = some s2) :
    Inv3 (processChoice a choice usage).1 (es ++ (processChoice a choice usage).2) ∧
    (processChoice a choice usage).1.toolCallItemIDs.map Prod.fst = s2 := by
  have hA : Inv3 (processRole a choice.delta).1
      (es ++ (processRole a choice.delta).2) := by
    rw [processRole_state]
    exact Inv3_append_nonFc h _ (processRole_nonFc a choice.delta)
  have hB := Inv3_processText hA choice.delta
  have hkeysB : (processText (processRole a choice.delta).1
      choice.delta).1.toolCallItemIDs = a.toolCallItemIDs := by
    rw [(processText_fields _ _).1, processRole_state]
  have htextB : (processText (processRole a choice.delta).1
      choice.delta).1.hasTextContent =
      (a.hasTextContent || contentDeltaB choice.delta) := by
    rw [(processText_fields _ _).2.2.2.2, processRole_state]
  have hG := Inv3_processToolCallsGuard hB choice.delta s2
    (by
      intro hne
      rw [htextB]
      exact htb hne)
    (by
      rw [hkeysB]
      exact hcons)
  by_cases hfin : choiceFinishB choice = true
  · refine ⟨?_, ?_⟩
    · simp only [processChoice]
      rw [processFinish_eq hfin]
      have hfinal := Inv3_append_finish hG.1 usage (choice.finishReason.getD "")
      simpa [List.append_assoc] using hfinal
    · simp only [processChoice]
      exact hG.2
  · have hfin2 : choiceFinishB choice = false := by
      simpa using hfin
    refine ⟨?_, ?_⟩
    · simp only [processChoice]
      rw [processFinish_nil hfin2]
      simpa [List.append_assoc] using hG.1
    · simp only [processChoice]
      exact hG.2

theorem Inv3_convertChunk {a : ChatToResponsesStreamAdapter} {es : List StreamEvent}
    (h : Inv3 a es) (c : ChatCompletionsStreamResponse) (s2 : List Int)
    (htb : toolCallsOf c ≠ [] → (a.hasTextContent || contentB c) = true)
    (hcons : consecTools (a.toolCallItemIDs.map Prod.fst) (toolCallsOf c) = some s2) :
    Inv3 (ConvertChunk a (some c)).1 (es ++ (ConvertChunk a (some c)).2) ∧
    (ConvertChunk a (some c)).1.toolCallItemIDs.map Prod.fst = s2 := by
  have h1 : Inv3 (if c.model ≠ "" then { a with model := c.model } else a) es := by
    split
    · exact Inv3_state_frame h _ rfl rfl (le_refl _) rfl rfl
    · exact h
  have hkeys1 : (if c.model ≠ "" then { a with model := c.model }
      else a).toolCallItemIDs = a.toolCallItemIDs := by
    split <;> rfl
  have htext1 : (if c.model ≠ "" then { a with model := c.model }
      else a).hasTextContent = a.hasTextContent := by
    split <;> rfl
  generalize hA1 : (if c.model ≠ "" then { a with model := c.model } else a) = a1
    at h1 hkeys1 htext1
  have h2main : Inv3 (if a1.initialized = false then
        ({ a1 with initialized := true },
         [createResponseCreatedEvent { a1 with initialized := true },
          createResponseInProgressEvent { a1 with initialized := true }])
      else (a1, ([] : List StreamEvent))).1
      (es ++ (if a1.initialized = false then
        ({ a1 with initialized := true },
         [createResponseCreatedEvent { a1 with initialized := true },
          createResponseInProgressEvent { a1 with initialized := true }])
      else (a1, ([] : List StreamEvent))).2) := by
    split
    · exact Inv3_mono_nonFc h1 _ rfl rfl (le_refl _) rfl rfl (initEvents_nonFc _)
    · simpa using h1
  have hkeys2 : (if a1.initialized = false then
        ({ a1 with initialized := true },
         [createResponseCreatedEvent { a1 with initialized := true },
          createResponseInProgressEvent { a1 with initialized := true }])
      else (a1, ([] : List StreamEvent))).1.toolCallItemIDs = a1.toolCallItemIDs := by
    split <;> rfl
  have htext2 : (if a1.initialized = false then
        ({ a1 with initialized := true },
         [createResponseCreatedEvent { a1 with initialized := true },
          createResponseInProgressEvent { a1 with initialized := true }])
      else (a1, ([] : List StreamEvent))).1.hasTextContent = a1.hasTextContent := by
    split <;> rfl
  simp only [ConvertChunk]
  rw [hA1]
  cases hc : c.choices with
  | nil =>
      simp only []
      refine ⟨h2main, ?_⟩
      rw [hkeys2, hkeys1]
      have htc0 : toolCallsOf c = [] := by
        simp [toolCallsOf, hc]
      rw [htc0] at hcons
      simp only [consecTools] at hcons
      exact Option.some.inj hcons
  | cons choice rest =>
      simp only []
      have htc : toolCallsOf c = choice.delta.toolCalls := by
        simp [toolCallsOf, hc]
      have hcb : contentB c = contentDeltaB choice.delta := by
        simp [contentB, contentDeltaB, hc]
      have h3 := Inv3_processChoice h2main choice c.usage s2
        (by
          intro hne
          rw [htext2, htext1, ← hcb]
          refine htb ?_
          rw [htc]
          exact hne)
        (by
          rw [hkeys2, hkeys1, ← htc]
          exact hcons)
      refine ⟨?_, h3.2⟩
      simpa [List.append_assoc] using h3.1

theorem Inv3_runStream (cs : List ChatCompletionsStreamResponse) :
    ∀ (a : ChatToResponsesStreamAdapter) (es : List StreamEvent),
      Inv3 a es →
      textBeforeToolsB a.hasTextContent cs = true →
      toolIdxsConsecutiveB (a.toolCallItemIDs.map Prod.fst) cs = true →
      Inv3 (runStream a cs).1 (es ++ (runStream a cs).2) := by
  induction cs with
  | nil =>
      intro a es h _ _
      simpa [runStream] using h
  | cons c rest ih =>
      intro a es h htb hcons
      simp only [toolIdxsConsecutiveB] at hcons
      cases hct : consecTools (a.toolCallItemIDs.map Prod.fst) (toolCallsOf c) with
      | none =>
          rw [hct] at hcons
          exact Bool.noConfusion hcons
      | some seen2 =>
          rw [hct] at hcons
          simp only [textBeforeToolsB] at htb
          have htbc : toolCallsOf c ≠ [] → (a.hasTextContent || contentB c) = true := by
            intro hne
            have hlen : (toolCallsOf c).length > 0 := List.length_pos.mpr hne
            rw [if_pos hlen] at htb
            simp only [Bool.and_eq_true] at htb
            exact htb.1
          have htbrest : textBeforeToolsB (a.hasTextContent || contentB c) rest = true := by
            by_cases hlen : (toolCallsOf c).length > 0
            · rw [if_pos hlen] at htb
              simp only [Bool.and_eq_true] at htb
              exact htb.2
            · rw [if_neg hlen] at htb
              exact htb
          have hCC := Inv3_convertChunk h c seen2 htbc hct
          have htb2 : textBeforeToolsB (ConvertChunk a (some c)).1.hasTextContent
              rest = true := by
            rw [ConvertChunk_hasText]
            exact htbrest
          have hcons2 : toolIdxsConsecutiveB
              ((ConvertChunk a (some c)).1.toolCallItemIDs.map Prod.fst) rest = true := by
            rw [hCC.2]
            exact hcons
          have ih2 := ih (ConvertChunk a (some c)).1
            (es ++ (ConvertChunk a (some c)).2) hCC.1 htb2 hcons2
          simp only [runStream]
          rw [← List.append_assoc]
          exact ih2

/-- C3 (amended): when non-empty text content comes before or with every
tool call and tool-call indices first appear consecutively as 0, 1, 2,
..., every stream event referencing the tool call item registered at
index `idx` — its `output_item.added`, `function_call_arguments.delta`,
`function_call_arguments.done` and `output_item.done` — carries
`output_index = idx + 1`, the value announced by its
`output_item.added`. Without those conditions the values disagree (see
the counterexample). -/
theorem C3_tool_call_output_index (t : Int)
    (chunks : List ChatCompletionsStreamResponse)
    (htb : textBeforeToolsB false chunks = true)
    (hcons : toolIdxsConsecutiveB [] chunks = true)
    (es : List StreamEvent)
    (hes : es = (runStream (NewChatToResponsesStreamAdapter t) chunks).2)
    (idx : Int) (id : String)
    (hmem : (idx, id) ∈
      (runStream (NewChatToResponsesStreamAdapter t) chunks).1.toolCallItemIDs) :
    ∀ e ∈ es, fcEventId e = some id → fcEventOutputIndex e = some (idx + 1) := by
  subst hes
  have h0 : Inv3 (NewChatToResponsesStreamAdapter t) [] := by
    refine ⟨FcInv_new t, ?_, ?_, ?_⟩
    · simp [NewChatToResponsesStreamAdapter]
    · intro hne
      simp [NewChatToResponsesStreamAdapter] at hne
    · intro e he
      simp at he
  have hInv := Inv3_runStream chunks (NewChatToResponsesStreamAdapter t) [] h0 htb hcons
  intro e he hei
  have he2 : e ∈ ([] : List StreamEvent) ++
      (runStream (NewChatToResponsesStreamAdapter t) chunks).2 := by
    simpa using he
  obtain ⟨p, hp, hpi, hpo⟩ := hInv.evOK e he2 id hei
  have hpe : p = (idx, id) :=
    List.inj_on_of_nodup_map hInv.fc.idsNodup hp hmem hpi
  rw [hpe] at hpo
  exact hpo

/-- Witness for C3: in the stream [text chunk; finishing tool-call
chunk], the tool call registered at index 0 has its added event carrying
`output_index = 0 + 1`. -/
theorem C3_tool_call_output_index_witness :
    fcEventOutputIndex (StreamEvent.outputItemAddedFunctionCall 1 ("fc_" ++ uuid 2)
      "call_a" "f") = some (0 + 1) :=
  C3_tool_call_output_index 0 [c3TextChunk, c5Chunk] (by decide) (by decide) _ rfl 0
    ("fc_" ++ uuid 2) (by decide)
    (StreamEvent.outputItemAddedFunctionCall 1 ("fc_" ++ uuid 2) "call_a" "f")
    (by decide) (by decide)

/-- C2 counterexample: a single finishing chunk that announces the
assistant role but carries no content emits a message
`output_item.added` and a `content_part.added` and then
`response.completed`, with no `output_item.done` and no
`content_part.done` — added events without matching done events. -/
theorem C2_counterexample :
    hasFinishB c2Chunk = true ∧
    ((runStream (NewChatToResponsesStreamAdapter 0) [c2Chunk]).2.countP isMsgItemAdded) = 1 ∧
    ((runStream (NewChatToResponsesStreamAdapter 0) [c2Chunk]).2.countP isMsgItemDone) = 0 ∧
    ((runStream (NewChatToResponsesStreamAdapter 0) [c2Chunk]).2.countP isCpAdded) = 1 ∧
    ((runStream (NewChatToResponsesStreamAdapter 0) [c2Chunk]).2.countP isCpDone) = 0 ∧
    (runStream (NewChatToResponsesStreamAdapter 0) [c2Chunk]).2.map eventType =
      ["response.created", "response.in_progress", "response.output_item.added",
       "response.content_part.added", "response.completed"] :=
  ⟨rfl, rfl, rfl, rfl, rfl, rfl⟩

/-- C3 counterexample: with no prior text content, the first tool call
at index 0 gets `output_index = 1` on its `output_item.added` (the
incremented adapter counter) but `output_index = 0` on its
`function_call_arguments.delta` (the raw index) — two events for the
same item with different `output_index`. -/
theorem C3_counterexample :
    (runStream (NewChatToResponsesStreamAdapter 0) [c3Chunk]).2 =
      [StreamEvent.responseCreated ("resp_" ++ uuid 0) 0 "",
       StreamEvent.responseInProgress ("resp_" ++ uuid 0) 0 "",
       StreamEvent.outputItemAddedFunctionCall 1 ("fc_" ++ uuid 2) "call_a" "f",
       StreamEvent.functionCallArgumentsDelta ("fc_" ++ uuid 2) 0 "x"] ∧
    ((runStream (NewChatToResponsesStreamAdapter 0) [c3Chunk]).2.filterMap
        (fun e => match fcEventId e, fcEventOutputIndex e with
          | some i, some oi => some (i, oi)
          | _, _ => none)) =
      [("fc_" ++ uuid 2, 1), ("fc_" ++ uuid 2, 0)] :=
  ⟨rfl, rfl⟩

end OneApi
